import Mathlib

set_option autoImplicit false

namespace LibCgroup

/-!  Shallow embedding of libcgroup's `src/api.c`.

The operations are modelled as pure functions over explicit state:
the mount table is a list (or an indexed function, where the claim is
about raw array indices), the filesystem is a record of directories,
files and permission data, and every OS call outcome that the code
branches on (open failure, mkdir errno, chown failure) is part of that
state.  Thread-local `last_errno` is threaded explicitly.  Integer
error codes are `Nat`, `0` meaning success, as in the C code. -/

/-! ## Error codes

Modelled from the spec: the numeric values come from a header that is
not part of the sources here; the spec says error codes form a
contiguous integer range starting at a base sentinel (not-compiled),
in the order of the string table `cgroup_strerror_codes` in
`src/api.c`.  Only distinctness and `0 = success` matter below. -/

def ECGROUPNOTCOMPILED : Nat := 50000
def ECGROUPNOTMOUNTED : Nat := 50001
def ECGROUPNOTEXIST : Nat := 50002
def ECGROUPNOTCREATED : Nat := 50003
def ECGROUPSUBSYSNOTMOUNTED : Nat := 50004
def ECGROUPNOTOWNER : Nat := 50005
def ECGROUPMULTIMOUNTED : Nat := 50006
def ECGROUPNOTALLOWED : Nat := 50007
def ECGMAXVALUESEXCEEDED : Nat := 50008
def ECGCONTROLLEREXISTS : Nat := 50009
def ECGVALUEEXISTS : Nat := 50010
def ECGINVAL : Nat := 50011
def ECGCONTROLLERCREATEFAILED : Nat := 50012
def ECGFAIL : Nat := 50013
def ECGROUPNOTINITIALIZED : Nat := 50014
def ECGROUPVALUENOTEXIST : Nat := 50015
def ECGOTHER : Nat := 50016
def ECGROUPVALUESNOTEQUAL : Nat := 50017
def ECGCONTROLLERSDIFFERENT : Nat := 50018
def ECGROUPPARSEFAIL : Nat := 50019
def ECGROUPNORULES : Nat := 50020
def ECGMOUNTFAIL : Nat := 50021
def ECGCONFIGOPENFAIL : Nat := 50022
def ECGEOF : Nat := 50023

/-! ## String helpers shared by several models -/

/-- One step of C `strtok_r(s, " ", ..)`: skip leading spaces, return the
token up to the next space together with the rest of the string, or
`none` when nothing but delimiters is left.  Only the space character
is a delimiter, exactly as in `cg_read_stat`. -/
def strtokSpace (s : List Char) : Option (List Char × List Char) :=
  let t := s.dropWhile (fun c => c = ' ')
  if t.isEmpty then none
  else some (t.takeWhile (fun c => c ≠ ' '), t.dropWhile (fun c => c ≠ ' '))

/-! ## Stats iterator (`cg_read_stat`, `cgroup_read_stats_next`) -/

/-- The `struct cgroup_stat` record filled by the stats iterator. -/
structure cgroup_stat where
  name : String
  value : String
deriving DecidableEq, Repr

/-- Model of `cg_read_stat` in `src/api.c`.  `line?` is the outcome of
`getline`: `none` is end of file, `some l` the raw line (including the
trailing newline, which `getline` keeps).  The input `stat0` is the
caller's record, updated field by field by the two `strncpy` calls.

The source assigns `ret = ECGINVAL` when a token is missing, but its
final statement is `return 0;`, so the assignment is dead: every call
that gets past `getline` returns `0`.  The model reproduces that. -/
def cg_read_stat (line? : Option String) (stat0 : cgroup_stat) :
    Nat × cgroup_stat :=
  match line? with
  | none => (ECGEOF, stat0)
  | some line =>
    match strtokSpace line.data with
    | none => (0, stat0)
    | some (t1, rest) =>
      match strtokSpace rest with
      | none => (0, ⟨String.mk t1, stat0.value⟩)
      | some (t2, _) => (0, ⟨String.mk t1, String.mk t2⟩)

/-- Model of `cgroup_read_stats_next`: the initialized-flag check, the
null checks on handle and stat, then `cg_read_stat` on the next line of
the open stream.  `handleOk` models `handle && stat` being non-null. -/
def cgroup_read_stats_next (initialized : Bool) (handleOk : Bool)
    (line? : Option String) (stat0 : cgroup_stat) : Nat × cgroup_stat :=
  if !initialized then (ECGROUPNOTINITIALIZED, stat0)
  else if !handleOk then (ECGINVAL, stat0)
  else cg_read_stat line? stat0

/-! ## Mount table initialization (`cgroup_init`) -/

/-- One `/proc/mounts` entry as produced by `getmntent_r`.  `mnt_opts`
is the comma-separated option list already split into tokens; the net
effect of `hasmntopt` followed by `strtok_r(.., ",")` and `strcmp` in
`cgroup_init` is a match exactly when some option token equals the
controller name. -/
structure mntent where
  mnt_type : String
  mnt_dir : String
  mnt_opts : List String
deriving DecidableEq, Repr

/-- Outcome of the `/proc/cgroups` scan: the `fopen` can fail (with an
OS errno), the header `fgets` can fail, or the subsystem-name column of
the remaining rows is obtained. -/
inductive ProcCgroupsIO where
  | openFail (e : Nat)
  | headerFail (e : Nat)
  | content (ctrls : List String)
deriving DecidableEq, Repr

/-- Outcome of opening `/proc/mounts`: `fopen` failure (the code does
not record the errno on this path) or the parsed entries. -/
inductive ProcMountsIO where
  | openFail
  | content (ms : List mntent)
deriving DecidableEq, Repr

/-- Process-wide state read and written by `cgroup_init`: the static
array `cg_mount_table` (a slot is `(name, path)`; an empty name is the
terminator), the `cgroup_initialized` flag, and the thread-local
`last_errno`. -/
structure InitState where
  table : Nat → String × String
  initialized : Bool
  last_errno : Nat

/-- Result of a `cgroup_init` run: the return code plus the state. -/
structure InitResult where
  ret : Nat
  table : Nat → String × String
  initialized : Bool
  last_errno : Nat

/-- The `(controller, mount path)` pairs matched by the double loop of
`cgroup_init`, in order: for each `cgroup`-type mount entry, each
registered controller that appears as a mount option token. -/
def initMatches (ctrls : List String) (ms : List mntent) :
    List (String × String) :=
  ms.foldl (fun acc ent =>
    if ent.mnt_type = "cgroup" then
      acc ++ (ctrls.filter (fun c => c ∈ ent.mnt_opts)).map
        (fun c => (c, ent.mnt_dir))
    else acc) []

/-- Write the matched pairs into consecutive slots starting at `i`,
mirroring the `strcpy` pair at index `found_mnt` followed by
`found_mnt++`. -/
def writeSlots (i : Nat) (es : List (String × String))
    (t : Nat → String × String) : Nat → String × String :=
  match es with
  | [] => t
  | e :: rest => writeSlots (i + 1) rest (Function.update t i e)

/-- Model of `cgroup_init` in `src/api.c`.  After the scan, when no
controller matched, slot `0`'s name is cleared and `ECGROUPNOTMOUNTED`
is returned; otherwise the source increments `found_mnt` once more and
clears the name of slot `found_mnt + 1`, so the terminator is written
one past the last populated slot's successor, leaving slot
`found_mnt` untouched. -/
def cgroup_init (pc : ProcCgroupsIO) (pm : ProcMountsIO)
    (st : InitState) : InitResult :=
  match pc with
  | .openFail e => ⟨ECGOTHER, st.table, st.initialized, e⟩
  | .headerFail e => ⟨ECGOTHER, st.table, st.initialized, e⟩
  | .content ctrls =>
    match pm with
    | .openFail => ⟨ECGFAIL, st.table, st.initialized, st.last_errno⟩
    | .content ms =>
      let found := initMatches ctrls ms
      if found.isEmpty then
        ⟨ECGROUPNOTMOUNTED,
          Function.update st.table 0 ("", (st.table 0).2),
          st.initialized, st.last_errno⟩
      else
        let t1 := writeSlots 0 found st.table
        let n := found.length
        ⟨0, Function.update t1 (n + 1) ("", (t1 (n + 1)).2),
          true, st.last_errno⟩

/-! ## Rule engine (`cgroup_find_matching_rule_uid_gid`) -/

/-- A `uid_t`/`gid_t` field of a rule: the sentinels `CGRULE_WILD` and
`CGRULE_INVALID` (from the internal header, not among these sources)
or a concrete numeric identity. -/
inductive CgId where
  | wild
  | invalid
  | id (n : Nat)
deriving DecidableEq, Repr

/-- One `struct cgroup_rule`: the raw principal token (`name`), the
resolved uid/gid, the controller list and the destination group.  The
singly linked `next` pointers are represented by list order. -/
structure cgroup_rule where
  name : String
  uid : CgId
  gid : CgId
  controllers : List String
  destination : String
deriving DecidableEq, Repr

/-- The user/group database consulted through `getgrnam` and
`getpwuid`: a group name resolves to its gid and member names, a uid
to its user name. -/
structure UserDB where
  getgrnam : String → Option (Nat × List String)
  getpwuid : Nat → Option String

/-- Model of `cgroup_find_matching_rule_uid_gid`.  The C function
walks the linked rule list; returning the matched suffix models
returning the node pointer.  In the `@`-rule branch, a failing
`getgrnam` or `getpwuid` hits a bare `continue` that re-enters the
loop *without advancing* `ret`, i.e. the source loops forever; the
model spends one unit of `fuel` per executed iteration, so `none`
(fuel exhausted at every fuel) is that divergence, `some none` is the
C function returning NULL, and `some (some suffix)` a match. -/
def cgroup_find_matching_rule_uid_gid (db : UserDB) (uid gid : Nat) :
    Nat → List cgroup_rule → Option (Option (List cgroup_rule))
  | 0, _ => none
  | _ + 1, [] => some none
  | fuel + 1, r :: rest =>
    if r.uid = .wild ∧ r.gid = .wild then some (some (r :: rest))
    else if r.uid = .id uid then some (some (r :: rest))
    else if r.gid = .id gid then some (some (r :: rest))
    else if r.name.data.head? = some '@' then
      match db.getgrnam (String.mk r.name.data.tail) with
      | none => cgroup_find_matching_rule_uid_gid db uid gid fuel (r :: rest)
      | some (_, mem) =>
        match db.getpwuid uid with
        | none => cgroup_find_matching_rule_uid_gid db uid gid fuel (r :: rest)
        | some uname =>
          if uname ∈ mem then some (some (r :: rest))
          else cgroup_find_matching_rule_uid_gid db uid gid fuel rest
    else cgroup_find_matching_rule_uid_gid db uid gid fuel rest

/-- Modelled from the spec (the claim's words): a rule matches
`(uid, gid)` when its principal is the wildcard, or its UID equals
`uid`, or its GID equals `gid`, or it names a group of which `uid`'s
user is a member. -/
def specRuleMatches (db : UserDB) (uid gid : Nat) (r : cgroup_rule) : Bool :=
  (r.uid == .wild && r.gid == .wild) || r.uid == .id uid || r.gid == .id gid ||
  ((r.name.data.head? == some '@') &&
    match db.getgrnam (String.mk r.name.data.tail), db.getpwuid uid with
    | some (_, mem), some uname => mem.contains uname
    | _, _ => false)

/-- A user database where the group named by the first rule below no
longer resolves (e.g. the group was removed after the rules were
cached) while uid lookups succeed. -/
def c2db : UserDB :=
  ⟨fun _ => none, fun _ => some "alice"⟩

/-- An `@`-principal rule whose group name fails to resolve at match
time. -/
def c2rule1 : cgroup_rule := ⟨"@adm", .invalid, .id 5, ["cpu"], "/d1"⟩

/-- A wildcard rule placed after `c2rule1`; the claim expects it to be
selected. -/
def c2rule2 : cgroup_rule := ⟨"*", .wild, .wild, ["cpu"], "/d2"⟩

/-! ## Filesystem and process state for the Filesystem Driver -/

/-- The `FILENAME_MAX` bound that `snprintf` calls in
`cgroup_create_cgroup` check against. -/
def FILENAME_MAX : Nat := 4096

/-- Modelled from the spec: the bound `CG_CONTROLLER_MAX` comes from a
header that is not among these sources; the spec says the capacity is
the maximum number of supported controllers, e.g. 16. -/
def CG_CONTROLLER_MAX : Nat := 16

/-- Filesystem and per-process state the driver code runs against.
Directories and regular files are identified by the exact path strings
the code builds (the kernel's handling of duplicate slashes is not
normalized away, so e.g. the `"%s/tasks"` of a path already ending in
`/` yields a key containing `//`, used consistently by writer and
reader).  Because the kernel consumes each write to a cgroup pseudo
file whole, a file write replaces the content.  The `…Denied` sets
model the OS refusing the corresponding call with `EPERM` (or another
errno, for `mkdirOther`); `osErrno` is the errno such a failing call
reports; `fowner` is the `st_uid/st_gid` pair `stat` reports. -/
structure FS where
  cwd : String
  dirs : List String
  files : List (String × String)
  rwDenied : List String
  mkdirDenied : List String
  mkdirOther : List String
  chownDenied : List String
  fowner : String → Nat × Nat
  cgMounted : Bool
  osErrno : Nat
  last_errno : Nat

/-- Result of the `mkdir` system call. -/
inductive MkdirR where
  | ok
  | eexist
  | eperm
  | eother
deriving DecidableEq, Repr

/-- The `mkdir` system call against the model filesystem. -/
def fsMkdir (fs : FS) (p : String) : MkdirR × FS :=
  if p ∈ fs.dirs then (.eexist, fs)
  else if p ∈ fs.mkdirDenied then (.eperm, fs)
  else if p ∈ fs.mkdirOther then (.eother, fs)
  else (.ok, { fs with dirs := p :: fs.dirs })

/-- Strip trailing slashes from a path; an all-slash nonempty path is
the root `/`. -/
def stripSlash (s : String) : String :=
  let t := (s.data.reverse.dropWhile (fun c => c = '/')).reverse
  if t.isEmpty ∧ ¬ s.data.isEmpty then "/" else String.mk t

/-- Resolve a path against the working directory: absolute paths stand
alone, relative ones are interpreted below `cwd`. -/
def resolvePath (cwd rel : String) : String :=
  if rel.data.head? = some '/' then stripSlash rel
  else if cwd = "/" then "/" ++ stripSlash rel
  else cwd ++ "/" ++ stripSlash rel

/-- The segments produced by the index scan in `cg_mkdir_p`: from
position `i`, `j` advances over non-slash characters and then over the
following run of slashes, and `real_path[i..j)` is the segment handed
to `mkdir` and `chdir`. -/
def pathSegsF : Nat → List Char → List (List Char)
  | 0, _ => []
  | _, [] => []
  | fuel + 1, cs =>
    let r1 := cs.dropWhile (fun c => c ≠ '/')
    let r2 := r1.dropWhile (fun c => c = '/')
    (cs.takeWhile (fun c => c ≠ '/') ++ r1.takeWhile (fun c => c = '/')) ::
      pathSegsF fuel r2

/-- Segment list of a path.  Each scan step consumes at least one
character, so the input length bounds the number of iterations and the
fuel never runs out. -/
def pathSegs (cs : List Char) : List (List Char) :=
  pathSegsF cs.length cs

/-- The loop of `cg_mkdir_p` over the remaining segments.  Per
segment: `mkdir`, where `EEXIST` is tolerated, `EPERM` maps to
`ECGROUPNOTOWNER` and anything else to `ECGROUPNOTALLOWED` — both via
`goto done`, which skips the final `chdir` back to `cwd0`; on success
the code `chdir`s into the segment.  A failing mid-walk `chdir`
`break`s out, so the function falls through to the restoring `chdir`
and returns its result.  The empty-segment case exits the loop and
performs the restoring `chdir(buf)`. -/
def cg_mkdir_p_go (cwd0 : String) (fs : FS) : List (List Char) → Nat × FS
  | [] =>
    if cwd0 ∈ fs.dirs then (0, { fs with cwd := cwd0 })
    else (ECGOTHER, { fs with last_errno := fs.osErrno })
  | seg :: rest =>
    let target := resolvePath fs.cwd (String.mk seg)
    let (r, fs1) := fsMkdir fs target
    match r with
    | .eperm => (ECGROUPNOTOWNER, fs1)
    | .eother => (ECGROUPNOTALLOWED, fs1)
    | _ =>
      if target ∈ fs1.dirs then
        cg_mkdir_p_go cwd0 { fs1 with cwd := target } rest
      else if cwd0 ∈ fs1.dirs then (0, { fs1 with cwd := cwd0 })
      else (ECGOTHER, { fs1 with last_errno := fs1.osErrno })

/-- Model of `cg_mkdir_p`: record the entry working directory
(`getcwd`; its failure and `strdup` failures are allocation paths not
modelled) and walk the path segment by segment. -/
def cg_mkdir_p (path : String) (fs : FS) : Nat × FS :=
  cg_mkdir_p_go fs.cwd fs (pathSegs path.data)

/-- Model of `cg_create_control_group`: the mounted-filesystem probe
followed by `cg_mkdir_p`. -/
def cg_create_control_group (path : String) (fs : FS) : Nat × FS :=
  if !fs.cgMounted then (ECGROUPNOTMOUNTED, fs) else cg_mkdir_p path fs

/-- Replace the content of the first binding of `p`, keeping the key
set: a cgroup pseudo-file write consumes the value whole. -/
def setContent : List (String × String) → String → String → List (String × String)
  | [], _, _ => []
  | (k, v) :: rest, p, val =>
    if k = p then (k, val) :: rest else (k, v) :: setContent rest p val

/-- The prefix of `p` up to and including its last `/`, as computed by
the backwards scan in `cg_set_control_value` before appending
`"tasks"`. -/
def dirOfPath (p : String) : String :=
  String.mk ((p.data.reverse.dropWhile (fun c => c ≠ '/')).reverse)

/-- Model of `cg_set_control_value`: `fopen(path, "r+")` fails with
`EPERM` when the path is write-denied (then the code probes the
sibling `tasks` file to distinguish an unmounted subsystem from a
plain permission problem) and with `ENOENT` when the file does not
exist (`ECGROUPVALUENOTEXIST`); otherwise the value is written. -/
def cg_set_control_value (path : String) (val : String) (fs : FS) : Nat × FS :=
  if !fs.cgMounted then (ECGROUPNOTMOUNTED, fs)
  else if path ∈ fs.rwDenied then
    if (fs.files.lookup (dirOfPath path ++ "tasks")).isSome then
      (ECGROUPNOTALLOWED, fs)
    else (ECGROUPSUBSYSNOTMOUNTED, fs)
  else
    match fs.files.lookup path with
    | none => (ECGROUPVALUENOTEXIST, fs)
    | some _ => (0, { fs with files := setContent fs.files path val })

/-! ## Group model and mount table -/

/-- One `struct control_value`: attribute file basename and the text
to write there. -/
structure control_value where
  name : String
  value : String
deriving DecidableEq, Repr

/-- One `struct cgroup_controller`: name plus the `values[0..index)`
array as a list. -/
structure cgroup_controller where
  name : String
  values : List control_value
deriving DecidableEq, Repr

/-- The `struct cgroup` aggregate: relative group name, the two
ownership identities, and `controller[0..index)` as a list. -/
structure cgroup where
  name : String
  tasks_uid : Nat
  tasks_gid : Nat
  control_uid : Nat
  control_gid : Nat
  controller : List cgroup_controller
deriving DecidableEq, Repr

/-- The populated prefix of `cg_mount_table`: `(controller name, mount
directory)` in array order, the list end standing for the empty-name
terminator slot. -/
abbrev MountTable := List (String × String)

/-- Model of `cgroup_test_subsys_mounted`: scan the mount table for
the controller name (`strncmp` over the full buffer is equality). -/
def cgroup_test_subsys_mounted (mt : MountTable) (name : String) : Bool :=
  mt.any (fun e => e.1 == name)

/-- Model of `cg_build_path_locked`/`cg_build_path`: find the first
table entry for the controller and produce `mount/` or
`mount/name/`. -/
def cg_build_path (mt : MountTable) (name? : Option String) (ctrl : String) :
    Option String :=
  match mt.find? (fun e => e.1 == ctrl) with
  | none => none
  | some e =>
    match name? with
    | none => some (e.2 ++ "/")
    | some n => some (e.2 ++ "/" ++ n ++ "/")

/-- One `chown`+`chmod` visit of the recursive walk (`cg_chown_file`):
a refusal records the errno into `last_errno`; a success updates the
owner the filesystem reports.  The chmod bits are not tracked. -/
def chownOne (uid gid : Nat) (fs : FS) (p : String) : FS :=
  if p ∈ fs.chownDenied then { fs with last_errno := fs.osErrno }
  else { fs with fowner := Function.update fs.fowner p (uid, gid) }

/-- Model of `cg_chown_recursive`.  The `fts` walk with both `FTS_D`
and `FTS_DP` in the switch visits the root first (pre-order), then the
subtree, then the root again (post-order); `ret` is overwritten by
every entry, so the walk's return value is the final (root) visit's
result. -/
def cg_chown_recursive (path : String) (uid gid : Nat) (fs : FS) : Nat × FS :=
  let subtree := (fs.files.map Prod.fst ++ fs.dirs).filter
    (fun p => path.data.isPrefixOf p.data)
  let fs1 := (path :: subtree).foldl (chownOne uid gid) fs
  let fs2 := chownOne uid gid fs1 path
  if path ∈ fs.chownDenied then (ECGOTHER, fs2) else (0, fs2)

/-! ## `cgroup_create_cgroup` -/

/-- The attribute-write loop of `cgroup_create_cgroup` for one
controller.  A `snprintf` overflow of the path buffer is fatal
(`ECGOTHER`, first component `some`); a failing `cg_set_control_value`
overwrites `retval` and the loop continues. -/
def cg_create_values (base : String) (retval : Nat) (fs : FS) :
    List control_value → Option Nat × Nat × FS
  | [] => (none, retval, fs)
  | v :: rest =>
    let p := base ++ v.name
    if FILENAME_MAX ≤ p.length then
      (some ECGOTHER, retval, { fs with last_errno := fs.osErrno })
    else
      let (e, fs') := cg_set_control_value p v.value fs
      if e ≠ 0 then cg_create_values base e fs' rest
      else cg_create_values base retval fs' rest

/-- The controller loop of `cgroup_create_cgroup`.  Any fatal error —
directory creation, recursive ownership change, path-buffer overflow,
`tasks` ownership change — returns by `goto err` with `error ≠ 0`, so
the fatal code is returned even when `retval` holds a remembered
write error; reaching the end of the loop returns `retval` (the last
remembered non-fatal write error, or `0`). -/
def cg_create_loop (mt : MountTable) (ign : Bool) (g : cgroup)
    (retval : Nat) (fs : FS) : List cgroup_controller → Nat × FS
  | [] => (retval, fs)
  | c :: rest =>
    match cg_build_path mt (some g.name) c.name with
    | none => cg_create_loop mt ign g retval fs rest
    | some path0 =>
      let (e1, fs1) := cg_create_control_group path0 fs
      if e1 ≠ 0 then (e1, fs1)
      else
        let (e2, fs2) :=
          if ign then (0, fs1)
          else cg_chown_recursive path0 g.control_uid g.control_gid fs1
        if e2 ≠ 0 then (e2, fs2)
        else
          match cg_create_values path0 retval fs2 c.values with
          | (some fatal, _, fs3) => (fatal, fs3)
          | (none, retval', fs3) =>
            if ign then cg_create_loop mt ign g retval' fs3 rest
            else
              let tpath := path0 ++ "/tasks"
              if FILENAME_MAX ≤ tpath.length then
                (ECGOTHER, { fs3 with last_errno := fs3.osErrno })
              else if tpath ∈ fs3.chownDenied then
                (ECGOTHER, { fs3 with last_errno := fs3.osErrno })
              else
                let fs4 := { fs3 with
                  fowner := Function.update fs3.fowner tpath (g.tasks_uid, g.tasks_gid) }
                cg_create_loop mt ign g retval' fs4 rest

/-- Model of `cgroup_create_cgroup`: the initialized check, the
all-controllers-mounted pre-check, then the per-controller loop. -/
def cgroup_create_cgroup (mt : MountTable) (ini : Bool) (g : cgroup)
    (ign : Bool) (fs : FS) : Nat × FS :=
  if !ini then (ECGROUPNOTINITIALIZED, fs)
  else if !(g.controller.all (fun c => cgroup_test_subsys_mounted mt c.name)) then
    (ECGROUPSUBSYSNOTMOUNTED, fs)
  else cg_create_loop mt ign g 0 fs g.controller

/-- The running `retval` of the attribute-write loop: every non-zero
write error overwrites the accumulator. -/
def lastErrFrom (acc : Nat) (es : List Nat) : Nat :=
  es.foldl (fun a e => if e ≠ 0 then e else a) acc

/-- A mount table for the create examples: `cpu` at `/cg`. -/
def c4mt : MountTable := [("cpu", "/cg")]

/-- Filesystem for the create examples: the group directory
`/cg/g` already exists, the attribute file `a` does not exist, the
attribute file `b` exists but opening it read-write is refused, and
the `tasks` file is present. -/
def c4fs : FS :=
  ⟨"/h", ["/", "/cg", "/cg/g", "/h"],
    [("/cg/g/b", "x"), ("/cg/g/tasks", "")],
    ["/cg/g/b"], [], [], [], fun _ => (0, 0), true, 13, 0⟩

/-- Group for the create examples: controller `cpu` with the two
attributes `a` and `b`. -/
def c4g : cgroup := ⟨"g", 0, 0, 0, 0, [⟨"cpu", [⟨"a", "1"⟩, ⟨"b", "2"⟩]⟩]⟩

/-! ## Reading a group back (`cgroup_get_cgroup`) -/

/-- One step of C `strtok_r(s, delim, ..)` for a single-character
delimiter, as used with `"."` in `cgroup_fill_cgc`. -/
def strtokChar (delim : Char) (s : List Char) : Option (List Char × List Char) :=
  let t := s.dropWhile (fun c => c = delim)
  if t.isEmpty then none
  else some (t.takeWhile (fun c => c ≠ delim), t.dropWhile (fun c => c ≠ delim))

/-- Whitespace for `fscanf("%s", ..)`. -/
def isWs (c : Char) : Bool :=
  c == ' ' || c == '\n' || c == '\t'

/-- The single whitespace-delimited token `fscanf("%s", ..)` reads
from the file content, or `none` at immediate end of file. -/
def fscanfToken (s : String) : Option String :=
  let t := s.data.dropWhile isWs
  if t.isEmpty then none
  else some (String.mk (t.takeWhile (fun c => !isWs c)))

/-- Model of `cg_rd_ctrl_file`: build the group path, append the file
name, open and read one token.  A missing file is
`ECGROUPVALUENOTEXIST`; an empty read leaves the value `NULL` while
still returning `0`, which the model renders as `.ok none`. -/
def cg_rd_ctrl_file (mt : MountTable) (gname ctrl file : String) (fs : FS) :
    Except Nat (Option String) :=
  match cg_build_path mt (some gname) ctrl with
  | none => .error ECGFAIL
  | some path0 =>
    match fs.files.lookup (path0 ++ file) with
    | none => .error ECGROUPVALUENOTEXIST
    | some content => .ok (fscanfToken content)

/-- Modelled from the spec: `add_value` appends an attribute;
duplicates produce a *value-exists* error (callers only test for
non-zero).  The source of `cgroup_add_value_string` (wrapper code) is
not among these files. -/
def cgroup_add_value_string (cgc : cgroup_controller) (name value : String) :
    Option cgroup_controller :=
  if cgc.values.any (fun v => v.name == name) then none
  else some { cgc with values := cgc.values ++ [⟨name, value⟩] }

/-- Modelled from the spec: `add_controller` appends a controller
block and fails when the table is full.  The source of
`cgroup_add_controller` (wrapper code) is not among these files. -/
def cgroup_add_controller (g : cgroup) (name : String) : Option cgroup :=
  if CG_CONTROLLER_MAX ≤ g.controller.length then none
  else some { g with controller := g.controller ++ [⟨name, []⟩] }

/-- The basenames `readdir` yields for the regular files of the
directory `dirPath` (which the callers pass with a trailing `/`):
file keys extending `dirPath` by a non-empty slash-free suffix. -/
def dirChildren (files : List (String × String)) (dirPath : String) :
    List String :=
  files.filterMap (fun kv =>
    if dirPath.data.isPrefixOf kv.1.data then
      let b := kv.1.data.drop dirPath.length
      if ¬ b.isEmpty ∧ b.contains '/' = false then some (String.mk b)
      else none
    else none)

/-- Model of `cgroup_fill_cgc` for one directory entry: skip `.` and
`..`, `stat` the file and capture its owner into the group's
`control_uid/gid`, split the basename at the first `.`, and when the
prefix equals the controller under scan, read the single token and
append `(basename, token)` to the controller block. -/
def cgroup_fill_cgc (mt : MountTable) (fs : FS) (d_name : String)
    (g : cgroup) (cgc : cgroup_controller) (ctrl : String) :
    Nat × cgroup × cgroup_controller :=
  if d_name = "." ∨ d_name = ".." then (ECGINVAL, g, cgc)
  else
    match cg_build_path mt (some g.name) ctrl with
    | none => (ECGFAIL, g, cgc)
    | some path0 =>
      if (fs.files.lookup (path0 ++ d_name)).isNone then (ECGFAIL, g, cgc)
      else
        let own := fs.fowner (path0 ++ d_name)
        let g1 := { g with control_uid := own.1, control_gid := own.2 }
        match strtokChar '.' d_name.data with
        | none => (ECGFAIL, g1, cgc)
        | some (t1, rest) =>
          match strtokChar '.' rest with
          | none => (ECGINVAL, g1, cgc)
          | some _ =>
            if String.mk t1 = ctrl then
              match cg_rd_ctrl_file mt g1.name ctrl d_name fs with
              | .error e => (e, g1, cgc)
              | .ok none => (0, g1, cgc)
              | .ok (some value) =>
                match cgroup_add_value_string cgc d_name value with
                | none => (ECGFAIL, g1, cgc)
                | some cgc' => (0, g1, cgc')
            else (0, g1, cgc)

/-- The `readdir` loop of `cgroup_get_cgroup`: fill from each entry,
aborting the whole read only on `ECGFAIL`. -/
def cg_get_fill_dir (mt : MountTable) (fs : FS) (ctrl : String) :
    List String → cgroup → cgroup_controller →
    Except Nat (cgroup × cgroup_controller)
  | [], g, cgc => .ok (g, cgc)
  | d :: rest, g, cgc =>
    let r := cgroup_fill_cgc mt fs d g cgc ctrl
    if r.1 = ECGFAIL then .error ECGFAIL
    else cg_get_fill_dir mt fs ctrl rest r.2.1 r.2.2

/-- The mount-table loop of `cgroup_get_cgroup`: for each mounted
controller whose `mount/name` exists, capture the `tasks` owner, add a
controller block (capacity check of `cgroup_add_controller`), and scan
the directory.  When no controller matched, the group does not
exist. -/
def cg_get_loop (mt : MountTable) (fs : FS) :
    MountTable → cgroup → Except Nat cgroup
  | [], g => if g.controller.isEmpty then .error ECGROUPNOTEXIST else .ok g
  | e :: rest, g =>
    match cg_build_path mt none e.1 with
    | none => cg_get_loop mt fs rest g
    | some mp =>
      if (mp ++ g.name) ∈ fs.dirs then
        match cg_build_path mt (some g.name) e.1 with
        | none => cg_get_loop mt fs rest g
        | some path0 =>
          let control_path := path0 ++ "/tasks"
          match fs.files.lookup control_path with
          | none => .error ECGOTHER
          | some _ =>
            let own := fs.fowner control_path
            let g1 := { g with tasks_uid := own.1, tasks_gid := own.2 }
            if CG_CONTROLLER_MAX ≤ g1.controller.length then .error ECGINVAL
            else
              match cg_get_fill_dir mt fs e.1 (dirChildren fs.files path0)
                  g1 ⟨e.1, []⟩ with
              | .error er => .error er
              | .ok (g2, cgc) =>
                cg_get_loop mt fs rest
                  { g2 with controller := g2.controller ++ [cgc] }
      else cg_get_loop mt fs rest g

/-- Model of `cgroup_get_cgroup`.  On any error path the source also
empties the caller's controller list (`cgroup_free_controllers`); the
model returns the error code alone. -/
def cgroup_get_cgroup (mt : MountTable) (ini : Bool) (g : cgroup)
    (fs : FS) : Except Nat cgroup :=
  if !ini then .error ECGROUPNOTINITIALIZED
  else cg_get_loop mt fs mt g

/-! ## Attaching tasks and rule execution -/

/-- Outcome of `fopen(path, "w")` on a tasks file. -/
inductive OpenWR where
  | ok
  | eperm
  | enoent
  | eother
deriving DecidableEq, Repr

/-- Model of `__cgroup_attach_task_pid`: open the tasks file for
writing and append the tid.  The returned list is the log of writes
performed (one on success, none on failure).  `fprintf`/`fflush`
failures are not modelled. -/
def __cgroup_attach_task_pid (env : String → OpenWR) (path : String)
    (tid : Nat) : Nat × List (String × Nat) :=
  match env path with
  | .ok => (0, [(path, tid)])
  | .eperm => (ECGROUPNOTOWNER, [])
  | .enoent => (ECGROUPNOTEXIST, [])
  | .eother => (ECGROUPNOTALLOWED, [])

/-- The non-null-group loop of `cgroup_attach_task_pid`: per
controller of the group, build the path and attach; the first failure
returns, keeping the writes already performed. -/
def cg_attach_loop_named (mt : MountTable) (env : String → OpenWR)
    (gname : String) (tid : Nat) :
    List cgroup_controller → Nat × List (String × Nat)
  | [] => (0, [])
  | c :: rest =>
    match cg_build_path mt (some gname) c.name with
    | none => cg_attach_loop_named mt env gname tid rest
    | some p =>
      let r := __cgroup_attach_task_pid env (p ++ "/tasks") tid
      if r.1 ≠ 0 then r
      else
        let r2 := cg_attach_loop_named mt env gname tid rest
        (r2.1, r.2 ++ r2.2)

/-- The null-group loop of `cgroup_attach_task_pid`: per mounted
controller, attach to its root tasks file. -/
def cg_attach_loop_null (mt : MountTable) (env : String → OpenWR)
    (tid : Nat) : MountTable → Nat × List (String × Nat)
  | [] => (0, [])
  | e :: rest =>
    match cg_build_path mt none e.1 with
    | none => cg_attach_loop_null mt env tid rest
    | some p =>
      let r := __cgroup_attach_task_pid env (p ++ "/tasks") tid
      if r.1 ≠ 0 then r
      else
        let r2 := cg_attach_loop_null mt env tid rest
        (r2.1, r.2 ++ r2.2)

/-- Model of `cgroup_attach_task_pid`: for a non-null group, first
verify every controller of the group is mounted (returning
`ECGROUPSUBSYSNOTMOUNTED` before touching any tasks file), then write
controller by controller; for a null group, write to every mounted
hierarchy, controller by controller, with no pre-check. -/
def cgroup_attach_task_pid (mt : MountTable) (env : String → OpenWR)
    (ini : Bool) (g? : Option cgroup) (tid : Nat) :
    Nat × List (String × Nat) :=
  if !ini then (ECGROUPNOTINITIALIZED, [])
  else
    match g? with
    | none => cg_attach_loop_null mt env tid mt
    | some g =>
      if !(g.controller.all (fun c => cgroup_test_subsys_mounted mt c.name)) then
        (ECGROUPSUBSYSNOTMOUNTED, [])
      else cg_attach_loop_named mt env g.name tid g.controller

/-- The `"*"` branch of `cg_prepare_cgroup`: add every controller of
the mount table to the transient group, then return. -/
def cg_prepare_star (g : cgroup) : MountTable → Except Nat cgroup
  | [] => .ok g
  | e :: rest =>
    match cgroup_add_controller g e.1 with
    | none => .error ECGROUPNOTALLOWED
    | some g' => cg_prepare_star g' rest

/-- The controller loop of `cg_prepare_cgroup`: a literal `"*"` token
expands to all currently mounted controllers (and ends the scan);
other tokens are added one by one; a failing `add_controller` frees
the transient group and yields `ECGROUPNOTALLOWED`. -/
def cg_prepare_go (mt : MountTable) (g : cgroup) :
    List String → Except Nat cgroup
  | [] => .ok g
  | c :: rest =>
    if c = "*" then cg_prepare_star g mt
    else
      match cgroup_add_controller g c with
      | none => .error ECGROUPNOTALLOWED
      | some g' => cg_prepare_go mt g' rest

/-- Model of `cg_prepare_cgroup`: build the transient group with
`name = dest` and the rule's controllers. -/
def cg_prepare_cgroup (mt : MountTable) (dest : String)
    (ctrls : List String) : Except Nat cgroup :=
  cg_prepare_go mt ⟨dest, 0, 0, 0, 0, []⟩ ctrls

/-- Model of `cgroup_change_cgroup_path`: prepare the transient group
and attach the pid to it. -/
def cgroup_change_cgroup_path (mt : MountTable) (env : String → OpenWR)
    (ini : Bool) (dest : String) (pid : Nat) (ctrls : List String) :
    Nat × List (String × Nat) :=
  if !ini then (ECGROUPNOTINITIALIZED, [])
  else
    match cg_prepare_cgroup mt dest ctrls with
    | .error e => (e, [])
    | .ok g => cgroup_attach_task_pid mt env ini (some g) pid

/-- The `tmp->name[0] == '%'` test of the execution loop: is this rule
a continuation of the one before it? -/
def ruleIsChild (r : cgroup_rule) : Bool :=
  r.name.data.head? == some '%'

/-- The `do … while` of `cgroup_change_cgroup_uid_gid_flags`: execute
the rule at the head; an error returns it at once; otherwise advance
while the next rule's name begins with `%`. -/
def cg_change_rules_loop (mt : MountTable) (env : String → OpenWR)
    (ini : Bool) (pid : Nat) : List cgroup_rule → Nat × List (String × Nat)
  | [] => (0, [])
  | r :: rest =>
    let x := cgroup_change_cgroup_path mt env ini r.destination pid r.controllers
    if x.1 ≠ 0 then x
    else
      match rest with
      | [] => x
      | r2 :: rest2 =>
        if ruleIsChild r2 then
          let y := cg_change_rules_loop mt env ini pid (r2 :: rest2)
          (y.1, x.2 ++ y.2)
        else x

/-- Model of `cgroup_change_cgroup_uid_gid_flags` on its
`CGFLAG_USECACHE` path: search the cached list and execute the match.
(The flag-less path differs only in obtaining the winning rule and its
continuations from a match-mode parse of the rules file instead of the
cached list.)  `none` propagates a diverging search. -/
def cgroup_change_cgroup_uid_gid_flags (fuel : Nat) (db : UserDB)
    (rl : List cgroup_rule) (mt : MountTable) (env : String → OpenWR)
    (ini : Bool) (uid gid pid : Nat) :
    Option (Nat × List (String × Nat)) :=
  if !ini then some (ECGROUPNOTINITIALIZED, [])
  else
    match cgroup_find_matching_rule_uid_gid db uid gid fuel rl with
    | none => none
    | some none => some (0, [])
    | some (some suffix) => some (cg_change_rules_loop mt env ini pid suffix)

/-- Modelled from the spec (the claim's words): `*` in a rule's
controller field means every currently mounted controller. -/
def expandStar (mt : MountTable) (cs : List String) : List String :=
  if cs = ["*"] then mt.map Prod.fst else cs

/-- Modelled from the spec (the claim's words): classification takes
the winning rule and its continuations in order, builds for each a
transient group named by the destination with the rule's controllers
(`*` expanded to every mounted controller), attaches the pid, and
stops at the first attach failure, returning its error. -/
def specClassifyEntries (mt : MountTable) (env : String → OpenWR)
    (pid : Nat) : List cgroup_rule → Nat × List (String × Nat)
  | [] => (0, [])
  | r :: rest =>
    let grp : cgroup :=
      ⟨r.destination, 0, 0, 0, 0,
        (expandStar mt r.controllers).map (fun n => ⟨n, []⟩)⟩
    let x := cgroup_attach_task_pid mt env true (some grp) pid
    if x.1 ≠ 0 then x
    else
      let y := specClassifyEntries mt env pid rest
      (y.1, x.2 ++ y.2)

/-- A tasks-file environment where writing under the `/b` hierarchy is
refused with `EPERM` and every other open succeeds. -/
def c10env : String → OpenWR :=
  fun p => if p = "/b//tasks" then .eperm else .ok

/-- A database for the classification example: no group lookups, uid
lookups succeed. -/
def c3db : UserDB :=
  ⟨fun _ => none, fun _ => some "alice"⟩

/-- Winning rule of the classification example: matches UID 7. -/
def c3rule1 : cgroup_rule := ⟨"alice", .id 7, .invalid, ["cpu"], "/u"⟩

/-- Continuation of `c3rule1`, with the wildcard controller field. -/
def c3rule2 : cgroup_rule := ⟨"%", .id 7, .invalid, ["*"], "/m"⟩

/-- A later independent rule; execution must stop before it. -/
def c3rule3 : cgroup_rule := ⟨"bob", .id 9, .invalid, ["cpu"], "/v"⟩

/-- A tasks-file environment where every open succeeds. -/
def c3env : String → OpenWR := fun _ => .ok

/-! ## Tree walk iterator -/

/-- The record type of tree-walk results (`enum cgroup_file_type`). -/
inductive cgroup_file_type where
  | file
  | dir
  | other
deriving DecidableEq, Repr

/-- The `fts_info` classification of a visited entry. -/
inductive FtsInfo where
  | d
  | dc
  | dnr
  | dp
  | err
  | f
  | ns
  | nsok
  | fdefault
deriving DecidableEq, Repr

/-- One entry of the `fts` traversal stream. -/
structure FTSENT where
  fts_name : String
  fts_parent : String
  fts_path : String
  fts_level : Nat
  fts_info : FtsInfo
deriving DecidableEq, Repr

/-- The `struct cgroup_file_info` record `cg_walk_node` fills. -/
structure cgroup_file_info where
  path : String
  parent : String
  full_path : String
  depth : Nat
  type : cgroup_file_type
deriving DecidableEq, Repr

/-- The typed classification of the `switch (ent->fts_info)` in
`cg_walk_node`: directories and regular files are typed, everything
else (including the error kinds, which only surface an errno) stays
`other`. -/
def walkTypeOf : FtsInfo → cgroup_file_type
  | .d => .dir
  | .f => .file
  | _ => .other

/-- Model of `cg_walk_node`: fill the info record from the entry; when
a depth bound is active (`depth ≠ 0`, the caller passes `base_level`
here) and the entry lies strictly deeper, return before the `switch`,
leaving `type` at `CGROUP_FILE_TYPE_OTHER`. -/
def cg_walk_node (ini : Bool) (ent : FTSENT) (depth : Nat) :
    Nat × Option cgroup_file_info :=
  if !ini then (ECGROUPNOTINITIALIZED, none)
  else if depth ≠ 0 ∧ depth < ent.fts_level then
    (0, some ⟨ent.fts_name, ent.fts_parent, ent.fts_path, ent.fts_level, .other⟩)
  else
    (0, some ⟨ent.fts_name, ent.fts_parent, ent.fts_path, ent.fts_level,
      walkTypeOf ent.fts_info⟩)

/-- Model of `cgroup_walk_tree_next`: read the next entry (end of
stream is `ECGEOF`); a caller-supplied `base_level` of `0` with a
positive depth is recomputed from the current entry; then classify the
node.  The third component is the advanced stream (the handle). -/
def cgroup_walk_tree_next (ini : Bool) (depth : Nat)
    (stream : List FTSENT) (base_level : Nat) :
    Nat × Option cgroup_file_info × List FTSENT :=
  if !ini then (ECGROUPNOTINITIALIZED, none, stream)
  else
    match stream with
    | [] => (ECGEOF, none, [])
    | ent :: rest =>
      let bl := if base_level = 0 ∧ depth ≠ 0 then ent.fts_level + depth
        else base_level
      let r := cg_walk_node ini ent bl
      (r.1, r.2, rest)

/-- Model of `cgroup_walk_tree_begin`: resolve the root path, read the
root entry, set `base_level` to the root's level plus `depth` when a
bound was requested, classify the root.  Components: return code,
info, remaining stream (handle), computed `base_level`. -/
def cgroup_walk_tree_begin (ini : Bool) (mt : MountTable)
    (controller base_path : String) (depth : Nat) (stream : List FTSENT) :
    Nat × Option cgroup_file_info × List FTSENT × Nat :=
  if !ini then (ECGROUPNOTINITIALIZED, none, stream, 0)
  else
    match cg_build_path mt (some base_path) controller with
    | none => (ECGOTHER, none, stream, 0)
    | some _ =>
      match stream with
      | [] => (ECGINVAL, none, [], 0)
      | root :: rest =>
        let bl := if depth ≠ 0 then root.fts_level + depth else 0
        let r := cg_walk_node ini root bl
        (r.1, r.2, rest, bl)

/-- Filesystem for the round-trip counterexample: group directory
present, attribute file `foo` (no controller prefix) and the `tasks`
file present. -/
def c1fs : FS :=
  ⟨"/h", ["/", "/cg", "/cg/g", "/h"],
    [("/cg/g/foo", "0"), ("/cg/g//tasks", "")],
    [], [], [], [], fun _ => (0, 0), true, 13, 0⟩

/-- Group for the round-trip counterexample: controller `cpu` with the
single, unprefixed attribute `foo`. -/
def c1g : cgroup := ⟨"g", 0, 0, 0, 0, [⟨"cpu", [⟨"foo", "1"⟩]⟩]⟩

/-- The fresh group handed to the read call. -/
def c1g0 : cgroup := ⟨"g", 0, 0, 0, 0, []⟩

/-- Filesystem for the round-trip witness: as `c1fs` but the
attribute file carries the `cpu.` prefix the reader looks for. -/
def c1fsp : FS :=
  ⟨"/h", ["/", "/cg", "/cg/g", "/h"],
    [("/cg/g/cpu.foo", "0"), ("/cg/g//tasks", "")],
    [], [], [], [], fun _ => (0, 0), true, 13, 0⟩

/-- Group for the round-trip witness: the one attribute is named
`cpu.foo`. -/
def c1gp : cgroup := ⟨"g", 0, 0, 0, 0, [⟨"cpu", [⟨"cpu.foo", "1"⟩]⟩]⟩

/-- C8: evaluation at the failing input.  The claim says a line without
both a key token and a value token makes the next operation return the
*invalid* error kind; on the line `"cache\n"` (key only, no space, no
value token) `cgroup_read_stats_next` returns `0` (success), because
`cg_read_stat` ends with `return 0;` and its `ret = ECGINVAL`
assignments are dead.  The value field of the record is left untouched. -/
theorem C8_missing_value_returns_success :
    cgroup_read_stats_next true true (some "cache\n") ⟨"", ""⟩ =
      (0, ⟨"cache\n", ""⟩) ∧ (0 : Nat) ≠ ECGINVAL := by
  constructor
  · rfl
  · decide

/-- C5: evaluation at the failing input.  A first `cgroup_init` run
matches two pairs; a second run (re-initialization) matches one pair
and reports success.  The claim requires the entry at index `1` to be
the empty terminator with no gap; instead the second run clears slot
`found_mnt + 1 = 2` and leaves slot `1` holding the stale entry
`("memory", "/cg2")` from the first run, so readers that stop at the
first empty name still see it.  The no-match part of the claim (slot
`0` cleared) does hold, shown by the third conjunct. -/
theorem C5_terminator_gap :
    (let r1 := cgroup_init (.content ["cpu", "memory"])
        (.content [⟨"cgroup", "/cg1", ["cpu"]⟩, ⟨"cgroup", "/cg2", ["memory"]⟩])
        ⟨fun _ => ("", ""), false, 0⟩
     let r2 := cgroup_init (.content ["cpu"])
        (.content [⟨"cgroup", "/cg1", ["cpu"]⟩])
        ⟨r1.table, r1.initialized, r1.last_errno⟩
     r2.ret = 0 ∧ r2.table 0 = ("cpu", "/cg1") ∧
       r2.table 1 = ("memory", "/cg2") ∧ (r2.table 1).1 ≠ "" ∧
       (r2.table 2).1 = "") ∧
    (cgroup_init (.content ["cpu"]) (.content [])
        ⟨fun i => if i = 0 then ("cpu", "/old") else ("", ""), false, 0⟩).table 0
      = ("", "/old") := by
  exact ⟨⟨rfl, rfl, rfl, by decide, rfl⟩, rfl⟩

/-- C6: the claim fails on the code: when opening the mounts list
fails, `cgroup_init` returns `ECGFAIL` (the *fail* kind), not the
*other* kind, and the thread-local errno is left untouched rather than
set to the underlying cause. -/
theorem C6_mounts_open_counterexample :
    (cgroup_init (.content ["cpu"]) .openFail
        ⟨fun _ => ("", ""), false, 7⟩).ret = ECGFAIL ∧
    ECGFAIL ≠ ECGOTHER ∧
    (cgroup_init (.content ["cpu"]) .openFail
        ⟨fun _ => ("", ""), false, 7⟩).last_errno = 7 := by
  exact ⟨rfl, by decide, rfl⟩

/-- C6 (amended): failure to open the controllers pseudo-file, and
failure to read its header line, return the *other* kind with the
thread-local errno holding the underlying OS error; failure to open
the mounts pseudo-file instead returns the *fail* kind and leaves the
thread-local errno unchanged. -/
theorem C6_init_io_errors (e : Nat) (ctrls : List String)
    (pm : ProcMountsIO) (st : InitState) :
    (cgroup_init (.openFail e) pm st).ret = ECGOTHER ∧
    (cgroup_init (.openFail e) pm st).last_errno = e ∧
    (cgroup_init (.headerFail e) pm st).ret = ECGOTHER ∧
    (cgroup_init (.headerFail e) pm st).last_errno = e ∧
    (cgroup_init (.content ctrls) .openFail st).ret = ECGFAIL ∧
    (cgroup_init (.content ctrls) .openFail st).last_errno = st.last_errno := by
  exact ⟨rfl, rfl, rfl, rfl, rfl, rfl⟩

/-- C2: evaluation at the failing input.  With the rule list
`[@adm …, * …]` and `(uid, gid) = (1, 2)` where the group `adm` no
longer resolves, the claim says the `@adm` rule simply does not match
and the wildcard rule is selected (second conjunct, the spec-side
first-match).  The code instead hits `continue` without advancing the
list pointer and loops forever: for every amount of fuel the model
reports divergence. -/
theorem C2_matcher_diverges_on_failed_lookup :
    (∀ fuel, cgroup_find_matching_rule_uid_gid c2db 1 2 fuel
        [c2rule1, c2rule2] = none) ∧
    [c2rule1, c2rule2].find? (fun r => specRuleMatches c2db 1 2 r) =
      some c2rule2 := by
  refine ⟨fun fuel => ?_, rfl⟩
  induction fuel with
  | zero => rfl
  | succ n ih => exact ih

/-- C7: evaluation at the failing input.  Creating `/a/b` from working
directory `/start`, where `/` and `/a` already exist and `mkdir` of
`/a/b` is refused with `EPERM`: the walk has already `chdir`ed into
`/a` when the refusal hits the `goto done` that skips the restoring
`chdir`, so the call returns `ECGROUPNOTOWNER` with the process left
in `/a`, not in the entry directory `/start`. -/
theorem C7_cwd_not_restored_on_eperm :
    (cg_mkdir_p "/a/b"
        ⟨"/start", ["/", "/a", "/start"], [], [], ["/a/b"], [], [],
          fun _ => (0, 0), true, 13, 0⟩).1 = ECGROUPNOTOWNER ∧
    (cg_mkdir_p "/a/b"
        ⟨"/start", ["/", "/a", "/start"], [], [], ["/a/b"], [], [],
          fun _ => (0, 0), true, 13, 0⟩).2.cwd = "/a" ∧
    ("/a" : String) ≠ "/start" := by
  exact ⟨rfl, rfl, by decide⟩

/-- C10: for every non-null group with some controller that is not
mounted, `cgroup_attach_task_pid` returns `ECGROUPSUBSYSNOTMOUNTED`
and performs no tasks-file write at all.  The second conjunct shows
the contrasting null-group path at a concrete input: there the check
and the write go controller by controller, so when the second
hierarchy refuses the open, the write into the first hierarchy has
already happened. -/
theorem C10_attach_precheck (mt : MountTable) (env : String → OpenWR)
    (g : cgroup) (tid : Nat)
    (h : ∃ c ∈ g.controller, cgroup_test_subsys_mounted mt c.name = false) :
    cgroup_attach_task_pid mt env true (some g) tid =
      (ECGROUPSUBSYSNOTMOUNTED, []) ∧
    cgroup_attach_task_pid [("cpu", "/a"), ("mem", "/b")] c10env true
      none tid = (ECGROUPNOTOWNER, [("/a//tasks", tid)]) := by
  constructor
  · obtain ⟨c, hc, hm⟩ := h
    have hall : g.controller.all
        (fun c => cgroup_test_subsys_mounted mt c.name) = false := by
      rw [List.all_eq_false]
      exact ⟨c, hc, by simp [hm]⟩
    simp [cgroup_attach_task_pid, hall]
  · rfl

/-- C10 witness: a group naming the unmounted controller `mem` while
only `cpu` is mounted. -/
theorem C10_attach_precheck_witness :
    cgroup_attach_task_pid [("cpu", "/a")] c10env true
        (some ⟨"g", 0, 0, 0, 0, [⟨"mem", []⟩]⟩) 5 =
      (ECGROUPSUBSYSNOTMOUNTED, []) ∧
    cgroup_attach_task_pid [("cpu", "/a"), ("mem", "/b")] c10env true
      none 5 = (ECGROUPNOTOWNER, [("/a//tasks", 5)]) :=
  C10_attach_precheck [("cpu", "/a")] c10env ⟨"g", 0, 0, 0, 0, [⟨"mem", []⟩]⟩ 5
    (by decide)

/-- C9: for a walk begun with `max_depth = d > 0`, `begin` reports the
root with its typed record and hands back `base_level` equal to the
root's level plus `d`; each `next` fills name, parent, full path and
depth from the entry, and types the record from its `fts_info` exactly
when the entry's depth is at most `base_level + max_depth` (in code,
the already-summed `base_level`), while a strictly deeper entry comes
back untyped (`other`), its `switch` suppressed. -/
theorem C9_walk_depth_limit (mt : MountTable) (controller base_path fp : String)
    (d : Nat) (root ent : FTSENT) (rest rest2 : List FTSENT)
    (hd : 0 < d)
    (hbuild : cg_build_path mt (some base_path) controller = some fp) :
    cgroup_walk_tree_begin true mt controller base_path d (root :: rest) =
      (0, some ⟨root.fts_name, root.fts_parent, root.fts_path, root.fts_level,
        walkTypeOf root.fts_info⟩, rest, root.fts_level + d) ∧
    cgroup_walk_tree_next true d (ent :: rest2) (root.fts_level + d) =
      (0, some ⟨ent.fts_name, ent.fts_parent, ent.fts_path, ent.fts_level,
        if root.fts_level + d < ent.fts_level then .other
        else walkTypeOf ent.fts_info⟩, rest2) := by
  have hdne : d ≠ 0 := Nat.pos_iff_ne_zero.mp hd
  have hblne : root.fts_level + d ≠ 0 := by omega
  have hroot : ¬ (root.fts_level + d < root.fts_level) := by omega
  constructor
  · simp only [cgroup_walk_tree_begin, Bool.not_true, Bool.false_eq_true,
      if_false, hbuild, cg_walk_node, hdne, ne_eq, not_false_iff, if_true]
    simp [hroot, hdne]
  · simp only [cgroup_walk_tree_next, Bool.not_true, Bool.false_eq_true,
      if_false, cg_walk_node]
    have : ¬ (root.fts_level + d = 0 ∧ d ≠ 0) := by
      intro hc
      exact hblne hc.1
    simp only [this, if_false]
    by_cases hdeep : root.fts_level + d < ent.fts_level
    · simp [hdeep, hblne]
    · simp [hdeep, hblne]

/-- C9 witness: depth bound `1` below a root at level `0`; the entry at
level `2` is reported untyped. -/
theorem C9_walk_depth_limit_witness :
    cgroup_walk_tree_begin true [("cpu", "/c")] "cpu" "g" 1
        [⟨"g", "c", "/c/g", 0, .d⟩, ⟨"x", "g", "/c/g/x", 2, .f⟩] =
      (0, some ⟨"g", "c", "/c/g", 0, .dir⟩,
        [⟨"x", "g", "/c/g/x", 2, .f⟩], 1) ∧
    cgroup_walk_tree_next true 1 [⟨"x", "g", "/c/g/x", 2, .f⟩] 1 =
      (0, some ⟨"x", "g", "/c/g/x", 2, .other⟩, []) := by
  have h := C9_walk_depth_limit [("cpu", "/c")] "cpu" "g" "/c/g/" 1
    ⟨"g", "c", "/c/g", 0, .d⟩ ⟨"x", "g", "/c/g/x", 2, .f⟩
    [⟨"x", "g", "/c/g/x", 2, .f⟩] [] (by decide) (by decide)
  simpa using h

/-- `cg_prepare_star` adds one controller block per mount-table entry
when the group has room for all of them. -/
theorem cg_prepare_star_ok (entries : MountTable) (g : cgroup)
    (h : g.controller.length + entries.length ≤ CG_CONTROLLER_MAX) :
    cg_prepare_star g entries =
      .ok { g with controller :=
        g.controller ++ entries.map (fun e => ⟨e.1, []⟩) } := by
  induction entries generalizing g with
  | nil => simp [cg_prepare_star]
  | cons e es ih =>
    have hlt : ¬ (CG_CONTROLLER_MAX ≤ g.controller.length) := by
      simp only [List.length_cons] at h
      omega
    simp only [cg_prepare_star, cgroup_add_controller, hlt, if_false]
    rw [ih]
    · simp
    · simp only [List.length_append, List.length_cons, List.length_nil] at h ⊢
      omega

/-- `cg_prepare_go` without a `"*"` token adds exactly the listed
controllers when the group has room for them. -/
theorem cg_prepare_go_no_star (mt : MountTable) (cs : List String) (g : cgroup)
    (hstar : "*" ∉ cs)
    (h : g.controller.length + cs.length ≤ CG_CONTROLLER_MAX) :
    cg_prepare_go mt g cs =
      .ok { g with controller := g.controller ++ cs.map (fun n => ⟨n, []⟩) } := by
  induction cs generalizing g with
  | nil => simp [cg_prepare_go]
  | cons c rest ih =>
    have hc : ¬ (c = "*") := fun hh => hstar (by simp [hh])
    have hlt : ¬ (CG_CONTROLLER_MAX ≤ g.controller.length) := by
      simp only [List.length_cons] at h
      omega
    simp only [cg_prepare_go, hc, if_false, cgroup_add_controller, hlt]
    rw [ih _ (fun hh => hstar (List.mem_cons_of_mem _ hh))]
    · simp
    · simp only [List.length_append, List.length_cons, List.length_nil] at h ⊢
      omega

/-- `cg_prepare_cgroup` yields the transient group with the rule's
controllers, a sole `"*"` expanded to the whole mount table. -/
theorem cg_prepare_cgroup_ok (mt : MountTable) (dest : String)
    (cs : List String)
    (hcs : cs = ["*"] ∨ ("*" ∉ cs ∧ cs.length ≤ CG_CONTROLLER_MAX))
    (hmt : mt.length ≤ CG_CONTROLLER_MAX) :
    cg_prepare_cgroup mt dest cs =
      .ok ⟨dest, 0, 0, 0, 0, (expandStar mt cs).map (fun n => ⟨n, []⟩)⟩ := by
  rcases hcs with h | ⟨h1, h2⟩
  · subst h
    simp only [cg_prepare_cgroup, cg_prepare_go, if_pos]
    rw [cg_prepare_star_ok]
    · simp [expandStar, List.map_map, Function.comp]
    · simpa using hmt
  · have hne : ¬ (cs = ["*"]) := by
      intro hh
      rw [hh] at h1
      exact h1 (by simp)
    rw [cg_prepare_cgroup, cg_prepare_go_no_star mt cs _ h1 (by simpa using h2)]
    simp [expandStar, hne]

/-- `cgroup_change_cgroup_path` is the attach of the prepared
transient group. -/
theorem cgroup_change_cgroup_path_ok (mt : MountTable)
    (env : String → OpenWR) (dest : String) (pid : Nat) (cs : List String)
    (hcs : cs = ["*"] ∨ ("*" ∉ cs ∧ cs.length ≤ CG_CONTROLLER_MAX))
    (hmt : mt.length ≤ CG_CONTROLLER_MAX) :
    cgroup_change_cgroup_path mt env true dest pid cs =
      cgroup_attach_task_pid mt env true
        (some ⟨dest, 0, 0, 0, 0, (expandStar mt cs).map (fun n => ⟨n, []⟩)⟩)
        pid := by
  simp only [cgroup_change_cgroup_path, Bool.not_true, Bool.false_eq_true,
    if_false]
  rw [cg_prepare_cgroup_ok mt dest cs hcs hmt]

/-- One-step unfolding of the execution loop on a singleton list. -/
theorem cg_change_rules_loop_one (mt : MountTable) (env : String → OpenWR)
    (pid : Nat) (r : cgroup_rule) :
    cg_change_rules_loop mt env true pid [r] =
      (let x := cgroup_change_cgroup_path mt env true r.destination pid
        r.controllers
       if x.1 ≠ 0 then x else x) := rfl

/-- One-step unfolding of the execution loop on two or more rules. -/
theorem cg_change_rules_loop_cons (mt : MountTable) (env : String → OpenWR)
    (pid : Nat) (r r2 : cgroup_rule) (rs2 : List cgroup_rule) :
    cg_change_rules_loop mt env true pid (r :: r2 :: rs2) =
      (let x := cgroup_change_cgroup_path mt env true r.destination pid
        r.controllers
       if x.1 ≠ 0 then x
       else if ruleIsChild r2 then
         let y := cg_change_rules_loop mt env true pid (r2 :: rs2)
         (y.1, x.2 ++ y.2)
       else x) := rfl

/-- One-step unfolding of the spec-side classification pass. -/
theorem specClassifyEntries_cons (mt : MountTable) (env : String → OpenWR)
    (pid : Nat) (r : cgroup_rule) (rest : List cgroup_rule) :
    specClassifyEntries mt env pid (r :: rest) =
      (let x := cgroup_attach_task_pid mt env true
        (some ⟨r.destination, 0, 0, 0, 0,
          (expandStar mt r.controllers).map (fun n => ⟨n, []⟩)⟩) pid
       if x.1 ≠ 0 then x
       else
         let y := specClassifyEntries mt env pid rest
         (y.1, x.2 ++ y.2)) := rfl

/-- The execution `do … while` equals the spec-side pass over the
winning rule and exactly its following continuations. -/
theorem cg_change_rules_loop_eq_spec (mt : MountTable)
    (env : String → OpenWR) (pid : Nat) (r : cgroup_rule)
    (rs : List cgroup_rule)
    (hmt : mt.length ≤ CG_CONTROLLER_MAX)
    (hctrl : ∀ e ∈ r :: rs.takeWhile ruleIsChild,
      e.controllers = ["*"] ∨
        ("*" ∉ e.controllers ∧ e.controllers.length ≤ CG_CONTROLLER_MAX)) :
    cg_change_rules_loop mt env true pid (r :: rs) =
      specClassifyEntries mt env pid (r :: rs.takeWhile ruleIsChild) := by
  induction rs generalizing r with
  | nil =>
    simp only [List.takeWhile_nil] at hctrl ⊢
    have hr := hctrl r (by simp)
    have hpath := cgroup_change_cgroup_path_ok mt env r.destination pid
      r.controllers hr hmt
    rw [cg_change_rules_loop_one, specClassifyEntries_cons, hpath]
    simp only []
    cases hx : cgroup_attach_task_pid mt env true
        (some ⟨r.destination, 0, 0, 0, 0,
          (expandStar mt r.controllers).map (fun n => ⟨n, []⟩)⟩) pid with
    | mk a b =>
      by_cases ha : a = 0
      · subst ha
        simp [specClassifyEntries]
      · simp [ha]
  | cons r2 rs2 ih =>
    have hr := hctrl r (by simp)
    have hpath := cgroup_change_cgroup_path_ok mt env r.destination pid
      r.controllers hr hmt
    by_cases hchild : ruleIsChild r2
    · have htw : (r2 :: rs2).takeWhile ruleIsChild =
          r2 :: rs2.takeWhile ruleIsChild := by
        simp [List.takeWhile_cons, hchild]
      rw [htw] at hctrl ⊢
      have hihs := ih r2 (fun e he => hctrl e (List.mem_cons_of_mem _ he))
      rw [cg_change_rules_loop_cons, specClassifyEntries_cons, hpath, hihs]
      simp [hchild]
    · have htw : (r2 :: rs2).takeWhile ruleIsChild = [] := by
        simp [List.takeWhile_cons, hchild]
      rw [htw] at hctrl ⊢
      rw [cg_change_rules_loop_cons, specClassifyEntries_cons, hpath]
      simp only [hchild]
      cases hx : cgroup_attach_task_pid mt env true
          (some ⟨r.destination, 0, 0, 0, 0,
            (expandStar mt r.controllers).map (fun n => ⟨n, []⟩)⟩) pid with
      | mk a b =>
        by_cases ha : a = 0
        · subst ha
          simp [specClassifyEntries]
        · simp [ha]

/-- C3: when the cached search selects a winning suffix, classification
executes the winning rule and then exactly its immediately following
continuation rules, in order; each entry is one attach of a transient
group named by the entry's destination whose controllers are the
entry's (a sole `*` expanded to every controller of the current mount
table); the first failing attach aborts the remaining continuations
and its error is the result. -/
theorem C3_classification_order (fuel : Nat) (db : UserDB)
    (rl : List cgroup_rule) (mt : MountTable) (env : String → OpenWR)
    (uid gid pid : Nat) (r : cgroup_rule) (rs : List cgroup_rule)
    (hmatch : cgroup_find_matching_rule_uid_gid db uid gid fuel rl =
      some (some (r :: rs)))
    (hmt : mt.length ≤ CG_CONTROLLER_MAX)
    (hctrl : ∀ e ∈ r :: rs.takeWhile ruleIsChild,
      e.controllers = ["*"] ∨
        ("*" ∉ e.controllers ∧ e.controllers.length ≤ CG_CONTROLLER_MAX)) :
    cgroup_change_cgroup_uid_gid_flags fuel db rl mt env true uid gid pid =
      some (specClassifyEntries mt env pid (r :: rs.takeWhile ruleIsChild)) := by
  simp only [cgroup_change_cgroup_uid_gid_flags, Bool.not_true,
    Bool.false_eq_true, if_false]
  rw [hmatch]
  exact congrArg some (cg_change_rules_loop_eq_spec mt env pid r rs hmt hctrl)

/-- C3 witness: uid 7 wins at `c3rule1`; its continuation `c3rule2`
(wildcard controllers) is executed; the independent `c3rule3` is
not. -/
theorem C3_classification_order_witness :
    cgroup_change_cgroup_uid_gid_flags 1 c3db [c3rule1, c3rule2, c3rule3]
        [("cpu", "/a"), ("mem", "/b")] c3env true 7 0 42 =
      some (specClassifyEntries [("cpu", "/a"), ("mem", "/b")] c3env 42
        (c3rule1 :: [c3rule2, c3rule3].takeWhile ruleIsChild)) :=
  C3_classification_order 1 c3db [c3rule1, c3rule2, c3rule3]
    [("cpu", "/a"), ("mem", "/b")] c3env 7 0 42 c3rule1 [c3rule2, c3rule3]
    (by decide) (by decide) (by decide)

/-- `setContent` preserves the key list. -/
theorem setContent_keys (files : List (String × String)) (p val : String) :
    (setContent files p val).map Prod.fst = files.map Prod.fst := by
  induction files with
  | nil => rfl
  | cons kv rest ih =>
    obtain ⟨k, v⟩ := kv
    by_cases h : k = p
    · simp [setContent, h]
    · simp [setContent, h, ih]

/-- Whether a lookup succeeds depends only on the key list. -/
theorem lookup_isSome_congr (l1 l2 : List (String × String)) (q : String)
    (h : l1.map Prod.fst = l2.map Prod.fst) :
    (l1.lookup q).isSome = (l2.lookup q).isSome := by
  induction l1 generalizing l2 with
  | nil =>
    cases l2 with
    | nil => rfl
    | cons b bs => simp at h
  | cons a as ih =>
    cases l2 with
    | nil => simp at h
    | cons b bs =>
      obtain ⟨a1, a2⟩ := a
      obtain ⟨b1, b2⟩ := b
      simp only [List.map_cons, List.cons.injEq] at h
      obtain ⟨h1, h2⟩ := h
      subst h1
      rcases hq : q == a1 with _ | _ <;>
        simp [List.lookup, hq, ih bs h2]

/-- Evaluation of the error component of `cg_set_control_value`. -/
theorem cg_set_control_value_fst (p v : String) (fs : FS) :
    (cg_set_control_value p v fs).1 =
      if fs.cgMounted = false then ECGROUPNOTMOUNTED
      else if p ∈ fs.rwDenied then
        (if (fs.files.lookup (dirOfPath p ++ "tasks")).isSome then
          ECGROUPNOTALLOWED
        else ECGROUPSUBSYSNOTMOUNTED)
      else if (fs.files.lookup p).isSome then 0
      else ECGROUPVALUENOTEXIST := by
  unfold cg_set_control_value
  by_cases h1 : fs.cgMounted
  · by_cases h2 : p ∈ fs.rwDenied
    · by_cases h3 : (fs.files.lookup (dirOfPath p ++ "tasks")).isSome <;>
        simp [h1, h2, h3]
    · rcases h4 : fs.files.lookup p with _ | c <;> simp [h1, h2, h4]
  · simp [h1]

/-- The state component of `cg_set_control_value` is the input, or the
input with the single content replacement. -/
theorem cg_set_control_value_snd (p v : String) (fs : FS) :
    (cg_set_control_value p v fs).2 = fs ∨
    (cg_set_control_value p v fs).2 =
      { fs with files := setContent fs.files p v } := by
  unfold cg_set_control_value
  by_cases h1 : fs.cgMounted
  · by_cases h2 : p ∈ fs.rwDenied
    · by_cases h3 : (fs.files.lookup (dirOfPath p ++ "tasks")).isSome <;>
        simp [h1, h2, h3]
    · rcases h4 : fs.files.lookup p with _ | c
      · simp [h1, h2, h4]
      · simp [h1, h2, h4]
  · simp [h1]

/-- Fields of the filesystem that `cg_set_control_value` never
changes, and the preserved key list. -/
theorem cg_set_control_value_fields (p v : String) (fs : FS) :
    (cg_set_control_value p v fs).2.cwd = fs.cwd ∧
    (cg_set_control_value p v fs).2.dirs = fs.dirs ∧
    (cg_set_control_value p v fs).2.rwDenied = fs.rwDenied ∧
    (cg_set_control_value p v fs).2.chownDenied = fs.chownDenied ∧
    (cg_set_control_value p v fs).2.cgMounted = fs.cgMounted ∧
    (cg_set_control_value p v fs).2.fowner = fs.fowner ∧
    (cg_set_control_value p v fs).2.files.map Prod.fst =
      fs.files.map Prod.fst := by
  rcases cg_set_control_value_snd p v fs with h | h <;>
    rw [h] <;> simp [setContent_keys]

/-- The error of a write depends only on the mounted flag, the
permission set and the key list. -/
theorem cg_set_control_value_fst_congr (p v : String) (fs fs' : FS)
    (hm : fs'.cgMounted = fs.cgMounted) (hr : fs'.rwDenied = fs.rwDenied)
    (hk : fs'.files.map Prod.fst = fs.files.map Prod.fst) :
    (cg_set_control_value p v fs').1 = (cg_set_control_value p v fs).1 := by
  rw [cg_set_control_value_fst, cg_set_control_value_fst, hm, hr,
    lookup_isSome_congr _ _ _ hk, lookup_isSome_congr _ _ _ hk]

/-- A successful write replaces exactly one content. -/
theorem cg_set_control_value_zero (p v : String) (fs : FS)
    (h : (cg_set_control_value p v fs).1 = 0) :
    (cg_set_control_value p v fs).2 =
      { fs with files := setContent fs.files p v } ∧
    (fs.files.lookup p).isSome := by
  rw [cg_set_control_value_fst] at h
  by_cases h1 : fs.cgMounted = false
  · rw [if_pos h1] at h
    exact absurd h (by decide)
  · rw [if_neg h1] at h
    by_cases h2 : p ∈ fs.rwDenied
    · rw [if_pos h2] at h
      by_cases h3 : (fs.files.lookup (dirOfPath p ++ "tasks")).isSome
      · rw [if_pos h3] at h
        exact absurd h (by decide)
      · rw [if_neg h3] at h
        exact absurd h (by decide)
    · rw [if_neg h2] at h
      by_cases h4 : (fs.files.lookup p).isSome
      · refine ⟨?_, h4⟩
        unfold cg_set_control_value
        rcases h5 : fs.files.lookup p with _ | c
        · rw [h5] at h4
          simp at h4
        · simp [h1, h2, h5]
      · rw [if_neg h4] at h
        exact absurd h (by decide)

/-- A `lastErrFrom` accumulation is zero only when the start value and
every step are zero. -/
theorem lastErrFrom_eq_zero (es : List Nat) :
    ∀ acc, lastErrFrom acc es = 0 → acc = 0 ∧ ∀ e ∈ es, e = 0 := by
  induction es with
  | nil => intro acc h; exact ⟨h, by simp⟩
  | cons e rest ih =>
    intro acc h
    have hstep : lastErrFrom (if e ≠ 0 then e else acc) rest = 0 := h
    obtain ⟨hacc, hall⟩ := ih _ hstep
    by_cases he : e = 0
    · subst he
      simp only [ne_eq, not_true_eq_false, if_false] at hacc
      refine ⟨by simpa using hacc, ?_⟩
      intro x hx
      rcases List.mem_cons.mp hx with hx | hx
      · exact hx
      · exact hall x hx
    · rw [if_pos he] at hacc
      exact absurd hacc he

/-- Fields `cg_mkdir_p_go` never changes, and monotonicity of the
directory set. -/
theorem cg_mkdir_p_go_inv (cwd0 : String) (segs : List (List Char)) :
    ∀ fs : FS,
    (cg_mkdir_p_go cwd0 fs segs).2.files = fs.files ∧
    (cg_mkdir_p_go cwd0 fs segs).2.rwDenied = fs.rwDenied ∧
    (cg_mkdir_p_go cwd0 fs segs).2.chownDenied = fs.chownDenied ∧
    (cg_mkdir_p_go cwd0 fs segs).2.cgMounted = fs.cgMounted ∧
    (cg_mkdir_p_go cwd0 fs segs).2.fowner = fs.fowner ∧
    (cg_mkdir_p_go cwd0 fs segs).2.osErrno = fs.osErrno ∧
    ∀ d ∈ fs.dirs, d ∈ (cg_mkdir_p_go cwd0 fs segs).2.dirs := by
  induction segs with
  | nil =>
    intro fs
    by_cases h : cwd0 ∈ fs.dirs <;> simp [cg_mkdir_p_go, h]
  | cons seg rest ih =>
    intro fs
    simp only [cg_mkdir_p_go]
    by_cases h1 : resolvePath fs.cwd (String.mk seg) ∈ fs.dirs
    · simpa [fsMkdir, h1] using ih { fs with cwd := resolvePath fs.cwd (String.mk seg) }
    · by_cases h2 : resolvePath fs.cwd (String.mk seg) ∈ fs.mkdirDenied
      · simp [fsMkdir, h1, h2]
      · by_cases h3 : resolvePath fs.cwd (String.mk seg) ∈ fs.mkdirOther
        · simp [fsMkdir, h1, h2, h3]
        · have hmem : resolvePath fs.cwd (String.mk seg) ∈
              resolvePath fs.cwd (String.mk seg) :: fs.dirs := by simp
          have := ih { fs with
            dirs := resolvePath fs.cwd (String.mk seg) :: fs.dirs,
            cwd := resolvePath fs.cwd (String.mk seg) }
          simp only [fsMkdir, h1, h2, h3, if_false] at this ⊢
          simp only [hmem, if_true] at this ⊢
          refine ⟨this.1, this.2.1, this.2.2.1, this.2.2.2.1, this.2.2.2.2.1,
            this.2.2.2.2.2.1, ?_⟩
          intro d hd
          exact this.2.2.2.2.2.2 d (by simp [hd])

/-- The same invariants for `cg_create_control_group`. -/
theorem cg_create_control_group_inv (path : String) (fs : FS) :
    (cg_create_control_group path fs).2.files = fs.files ∧
    (cg_create_control_group path fs).2.rwDenied = fs.rwDenied ∧
    (cg_create_control_group path fs).2.chownDenied = fs.chownDenied ∧
    (cg_create_control_group path fs).2.cgMounted = fs.cgMounted ∧
    (cg_create_control_group path fs).2.fowner = fs.fowner ∧
    (cg_create_control_group path fs).2.osErrno = fs.osErrno ∧
    ∀ d ∈ fs.dirs, d ∈ (cg_create_control_group path fs).2.dirs := by
  unfold cg_create_control_group
  by_cases h : fs.cgMounted
  · simpa [h, cg_mkdir_p] using cg_mkdir_p_go_inv fs.cwd (pathSegs path.data) fs
  · simp [h]

/-- `chownOne` only changes the reported owner and `last_errno`. -/
theorem chownOne_fields (uid gid : Nat) (fs : FS) (p : String) :
    (chownOne uid gid fs p).files = fs.files ∧
    (chownOne uid gid fs p).dirs = fs.dirs ∧
    (chownOne uid gid fs p).rwDenied = fs.rwDenied ∧
    (chownOne uid gid fs p).chownDenied = fs.chownDenied ∧
    (chownOne uid gid fs p).cgMounted = fs.cgMounted ∧
    (chownOne uid gid fs p).osErrno = fs.osErrno ∧
    (chownOne uid gid fs p).cwd = fs.cwd := by
  unfold chownOne
  by_cases h : p ∈ fs.chownDenied <;> simp [h]

/-- The recursive ownership walk only changes the reported owners and
`last_errno`; its result is decided by the root's membership in the
refusal set. -/
theorem cg_chown_recursive_inv (path : String) (uid gid : Nat) (fs : FS) :
    (cg_chown_recursive path uid gid fs).1 =
      (if path ∈ fs.chownDenied then ECGOTHER else 0) ∧
    (cg_chown_recursive path uid gid fs).2.files = fs.files ∧
    (cg_chown_recursive path uid gid fs).2.dirs = fs.dirs ∧
    (cg_chown_recursive path uid gid fs).2.rwDenied = fs.rwDenied ∧
    (cg_chown_recursive path uid gid fs).2.chownDenied = fs.chownDenied ∧
    (cg_chown_recursive path uid gid fs).2.cgMounted = fs.cgMounted ∧
    (cg_chown_recursive path uid gid fs).2.cwd = fs.cwd := by
  have hfold : ∀ (ps : List String) (fs0 : FS),
      (ps.foldl (chownOne uid gid) fs0).files = fs0.files ∧
      (ps.foldl (chownOne uid gid) fs0).dirs = fs0.dirs ∧
      (ps.foldl (chownOne uid gid) fs0).rwDenied = fs0.rwDenied ∧
      (ps.foldl (chownOne uid gid) fs0).chownDenied = fs0.chownDenied ∧
      (ps.foldl (chownOne uid gid) fs0).cgMounted = fs0.cgMounted ∧
      (ps.foldl (chownOne uid gid) fs0).cwd = fs0.cwd := by
    intro ps
    induction ps with
    | nil => intro fs0; simp
    | cons p rest ih =>
      intro fs0
      have h1 := chownOne_fields uid gid fs0 p
      have h2 := ih (chownOne uid gid fs0 p)
      simp only [List.foldl_cons]
      exact ⟨h2.1.trans h1.1, h2.2.1.trans h1.2.1,
        h2.2.2.1.trans h1.2.2.1, h2.2.2.2.1.trans h1.2.2.2.1,
        h2.2.2.2.2.1.trans h1.2.2.2.2.1, h2.2.2.2.2.2.trans h1.2.2.2.2.2.2⟩
  unfold cg_chown_recursive
  have hf := hfold (path :: ((fs.files.map Prod.fst ++ fs.dirs).filter
    (fun p => path.data.isPrefixOf p.data))) fs
  have hone := chownOne_fields uid gid ((path :: ((fs.files.map Prod.fst ++ fs.dirs).filter
    (fun p => path.data.isPrefixOf p.data))).foldl (chownOne uid gid) fs) path
  by_cases h : path ∈ fs.chownDenied <;>
    · simp only [h, if_true, if_false]
      exact ⟨trivial, hone.1.trans hf.1, hone.2.1.trans hf.2.1,
        hone.2.2.1.trans hf.2.2.1, hone.2.2.2.1.trans hf.2.2.2.1,
        hone.2.2.2.2.1.trans hf.2.2.2.2.1, hone.2.2.2.2.2.2.trans hf.2.2.2.2.2⟩

/-- A one-step equation for `lastErrFrom`. -/
theorem lastErrFrom_cons (acc e : Nat) (es : List Nat) :
    lastErrFrom acc (e :: es) = lastErrFrom (if e ≠ 0 then e else acc) es := rfl

/-- A controller whose path resolves is in the mount table. -/
theorem cgroup_test_subsys_mounted_of_build (mt : MountTable)
    (name? : Option String) (c p : String)
    (h : cg_build_path mt name? c = some p) :
    cgroup_test_subsys_mounted mt c = true := by
  unfold cg_build_path at h
  rcases hf : mt.find? (fun e => e.1 == c) with _ | e
  · rw [hf] at h
    exact absurd h (by simp)
  · unfold cgroup_test_subsys_mounted
    rw [List.any_eq_true]
    have hp := List.find?_some hf
    exact ⟨e, List.mem_of_find?_eq_some hf, by simpa using hp⟩

/-- The attribute-write loop of `cgroup_create_cgroup`: with no
path-buffer overflow it never goes fatal, its `retval` comes out as
the running last non-zero write error — each error evaluated against
the loop-entry filesystem, which is sound because the loop preserves
the key list — and the resulting filesystem keeps every field a later
step inspects. -/
theorem cg_create_values_spec (bp : String) :
    ∀ (vals : List control_value) (retval : Nat) (fs : FS),
    (∀ v ∈ vals, (bp ++ v.name).length < FILENAME_MAX) →
    (cg_create_values bp retval fs vals).1 = none ∧
    (cg_create_values bp retval fs vals).2.1 =
      lastErrFrom retval
        (vals.map (fun v => (cg_set_control_value (bp ++ v.name) v.value fs).1)) ∧
    (cg_create_values bp retval fs vals).2.2.dirs = fs.dirs ∧
    (cg_create_values bp retval fs vals).2.2.rwDenied = fs.rwDenied ∧
    (cg_create_values bp retval fs vals).2.2.chownDenied = fs.chownDenied ∧
    (cg_create_values bp retval fs vals).2.2.cgMounted = fs.cgMounted ∧
    (cg_create_values bp retval fs vals).2.2.fowner = fs.fowner ∧
    (cg_create_values bp retval fs vals).2.2.files.map Prod.fst =
      fs.files.map Prod.fst := by
  intro vals
  induction vals with
  | nil =>
    intro retval fs _
    simp [cg_create_values, lastErrFrom]
  | cons v rest ih =>
    intro retval fs h
    have hv := h v (by simp)
    have hlt : ¬ FILENAME_MAX ≤ (bp ++ v.name).length := by omega
    simp only [cg_create_values, hlt, if_false, List.map_cons, lastErrFrom_cons]
    cases hse : cg_set_control_value (bp ++ v.name) v.value fs with
    | mk e fs' =>
      have hfields := cg_set_control_value_fields (bp ++ v.name) v.value fs
      rw [hse] at hfields
      have hcongr : rest.map (fun w =>
            (cg_set_control_value (bp ++ w.name) w.value fs').1) =
          rest.map (fun w =>
            (cg_set_control_value (bp ++ w.name) w.value fs).1) :=
        List.map_congr_left (fun w _ =>
          cg_set_control_value_fst_congr _ _ fs fs'
            hfields.2.2.2.2.1 hfields.2.2.1 hfields.2.2.2.2.2.2)
      have hrest := ih (if e ≠ 0 then e else retval) fs'
        (fun w hw => h w (List.mem_cons_of_mem _ hw))
      rw [hcongr] at hrest
      by_cases he : e = 0
      · subst he
        simp only [ne_eq, not_true_eq_false, if_false] at hrest ⊢
        refine ⟨hrest.1, hrest.2.1, ?_, ?_, ?_, ?_, ?_, ?_⟩
        · exact hrest.2.2.1.trans hfields.2.1
        · exact hrest.2.2.2.1.trans hfields.2.2.1
        · exact hrest.2.2.2.2.1.trans hfields.2.2.2.1
        · exact hrest.2.2.2.2.2.1.trans hfields.2.2.2.2.1
        · exact hrest.2.2.2.2.2.2.1.trans hfields.2.2.2.2.2.1
        · exact hrest.2.2.2.2.2.2.2.trans hfields.2.2.2.2.2.2
      · simp only [ne_eq, he, not_false_iff, if_true] at hrest ⊢
        refine ⟨hrest.1, hrest.2.1, ?_, ?_, ?_, ?_, ?_, ?_⟩
        · exact hrest.2.2.1.trans hfields.2.1
        · exact hrest.2.2.2.1.trans hfields.2.2.1
        · exact hrest.2.2.2.2.1.trans hfields.2.2.2.1
        · exact hrest.2.2.2.2.2.1.trans hfields.2.2.2.2.1
        · exact hrest.2.2.2.2.2.2.1.trans hfields.2.2.2.2.2.1
        · exact hrest.2.2.2.2.2.2.2.trans hfields.2.2.2.2.2.2

/-- C4: the claim fails on the code.  With attribute `a` missing (its
write fails with *value-not-exist*) and attribute `b` write-refused
(its write fails with *not-allowed*), no fatal error occurs, yet
create returns the *second* error: `retval = error` inside the loop
overwrites the remembered value on every failure, so the *last* write
error is remembered, not the first one the claim announces. -/
theorem C4_first_error_counterexample :
    (cgroup_create_cgroup c4mt true c4g true c4fs).1 = ECGROUPNOTALLOWED ∧
    (cg_set_control_value "/cg/g/a" "1" c4fs).1 = ECGROUPVALUENOTEXIST ∧
    (cg_set_control_value "/cg/g/b" "2"
        (cg_set_control_value "/cg/g/a" "1" c4fs).2).1 = ECGROUPNOTALLOWED ∧
    ECGROUPNOTALLOWED ≠ ECGROUPVALUENOTEXIST := by
  exact ⟨rfl, rfl, rfl, by decide⟩

/-- C4 (amended): inside create a failing attribute-file write is
non-fatal — the loop continues and the *last* such write error is
remembered (each new failure overwrites the remembered value); with no
fatal error the remembered error (or `0` when every write succeeded)
is the returned value; a fatal error — recursive ownership change, or
the `tasks` ownership change — is returned instead, regardless of the
remembered value. -/
theorem C4_create_remembers_last_write_error (mt : MountTable) (fs : FS)
    (g : cgroup) (blk : cgroup_controller) (bp : String) (fs₁ : FS)
    (hone : g.controller = [blk])
    (hbuild : cg_build_path mt (some g.name) blk.name = some bp)
    (hmk : cg_create_control_group bp fs = (0, fs₁))
    (hlen : ∀ v ∈ blk.values, (bp ++ v.name).length < FILENAME_MAX) :
    (cgroup_create_cgroup mt true g true fs).1 =
      lastErrFrom 0 (blk.values.map
        (fun v => (cg_set_control_value (bp ++ v.name) v.value fs₁).1)) ∧
    (bp ∈ fs.chownDenied →
      (cgroup_create_cgroup mt true g false fs).1 = ECGOTHER) ∧
    ((bp ∉ fs.chownDenied ∧ (bp ++ "/tasks").length < FILENAME_MAX ∧
        bp ++ "/tasks" ∈ fs.chownDenied) →
      (cgroup_create_cgroup mt true g false fs).1 = ECGOTHER) := by
  have htest := cgroup_test_subsys_mounted_of_build mt _ _ _ hbuild
  have hallb : (!(([blk] : List cgroup_controller).all
      (fun c => cgroup_test_subsys_mounted mt c.name))) = false := by
    simp [htest]
  have hmkinv := cg_create_control_group_inv bp fs
  rw [hmk] at hmkinv
  refine ⟨?_, ?_, ?_⟩
  · simp only [cgroup_create_cgroup, Bool.not_true, Bool.false_eq_true,
      if_false, hone, hallb]
    simp only [cg_create_loop]
    simp only [hbuild]
    rw [hmk]
    simp only [if_true, ne_eq]
    norm_num
    have hvs := cg_create_values_spec bp blk.values 0 fs₁ hlen
    cases hcv : cg_create_values bp 0 fs₁ blk.values with
    | mk fatal? r2 =>
      cases r2 with
      | mk retval' fs₃ =>
        rw [hcv] at hvs
        have hfat : fatal? = none := hvs.1
        subst hfat
        exact hvs.2.1
  · intro hden
    have hden1 : bp ∈ fs₁.chownDenied := by
      have h : fs₁.chownDenied = fs.chownDenied := hmkinv.2.2.1
      rw [h]
      exact hden
    have hch := cg_chown_recursive_inv bp g.control_uid g.control_gid fs₁
    rw [if_pos hden1] at hch
    simp only [cgroup_create_cgroup, Bool.not_true, Bool.false_eq_true,
      if_false, hone, hallb]
    simp only [cg_create_loop]
    simp only [hbuild]
    rw [hmk]
    simp only [if_true, ne_eq]
    norm_num
    cases hcc : cg_chown_recursive bp g.control_uid g.control_gid fs₁ with
    | mk ec fsc =>
      rw [hcc] at hch
      have hec : ec = ECGOTHER := hch.1
      subst hec
      norm_num [ECGOTHER]
  · rintro ⟨hnden, htlen, htden⟩
    have hnden1 : bp ∉ fs₁.chownDenied := by
      have h : fs₁.chownDenied = fs.chownDenied := hmkinv.2.2.1
      rw [h]
      exact hnden
    have hch := cg_chown_recursive_inv bp g.control_uid g.control_gid fs₁
    rw [if_neg hnden1] at hch
    simp only [cgroup_create_cgroup, Bool.not_true, Bool.false_eq_true,
      if_false, hone, hallb]
    simp only [cg_create_loop]
    simp only [hbuild]
    rw [hmk]
    simp only [if_true, ne_eq]
    norm_num
    cases hcc : cg_chown_recursive bp g.control_uid g.control_gid fs₁ with
    | mk ec fsc =>
      rw [hcc] at hch
      have hec : ec = 0 := hch.1
      subst hec
      norm_num
      have hvs := cg_create_values_spec bp blk.values 0 fsc hlen
      cases hcv : cg_create_values bp 0 fsc blk.values with
      | mk fatal? r2 =>
        cases r2 with
        | mk retval2 fs₃ =>
          rw [hcv] at hvs
          have hfat : fatal? = none := hvs.1
          subst hfat
          have hcd : fs₃.chownDenied = fsc.chownDenied := hvs.2.2.2.2.1
          have htd3 : bp ++ "/tasks" ∈ fs₃.chownDenied := by
            rw [hcd, hch.2.2.2.2.1]
            have h : fs₁.chownDenied = fs.chownDenied := hmkinv.2.2.1
            rw [h]
            exact htden
          have hlt2 : ¬ FILENAME_MAX ≤ bp.length + "/tasks".length := by
            rw [String.length_append] at htlen
            omega
          simp only [hlt2, if_false, htd3, if_true]

/-- C4 witness: the two-failing-writes example; the call returns the
last write error, and the fatal-override conjuncts instantiate. -/
theorem C4_create_remembers_last_write_error_witness :
    (cgroup_create_cgroup c4mt true c4g true c4fs).1 =
      lastErrFrom 0 ((⟨"cpu", [⟨"a", "1"⟩, ⟨"b", "2"⟩]⟩ :
          cgroup_controller).values.map
        (fun v => (cg_set_control_value ("/cg/g/" ++ v.name) v.value
          (cg_create_control_group "/cg/g/" c4fs).2).1)) ∧
    ("/cg/g/" ∈ c4fs.chownDenied →
      (cgroup_create_cgroup c4mt true c4g false c4fs).1 = ECGOTHER) ∧
    (("/cg/g/" ∉ c4fs.chownDenied ∧
        ("/cg/g/" ++ "/tasks").length < FILENAME_MAX ∧
        "/cg/g/" ++ "/tasks" ∈ c4fs.chownDenied) →
      (cgroup_create_cgroup c4mt true c4g false c4fs).1 = ECGOTHER) :=
  C4_create_remembers_last_write_error c4mt c4fs c4g
    ⟨"cpu", [⟨"a", "1"⟩, ⟨"b", "2"⟩]⟩ "/cg/g/"
    (cg_create_control_group "/cg/g/" c4fs).2 rfl rfl rfl (by decide)

/-- A lookup succeeds exactly when the key is bound. -/
theorem lookup_isSome_iff (files : List (String × String)) (q : String) :
    (files.lookup q).isSome = true ↔ ∃ kv ∈ files, kv.1 = q := by
  induction files with
  | nil => simp [List.lookup]
  | cons kv rest ih =>
    obtain ⟨k, v⟩ := kv
    by_cases h : q = k
    · subst h
      simp [List.lookup]
    · have hbeq : (q == k) = false := by
        simp [h]
      simp only [List.lookup, hbeq]
      rw [ih]
      constructor
      · rintro ⟨kv', hm, hk⟩
        exact ⟨kv', by simp [hm], hk⟩
      · rintro ⟨kv', hm, hk⟩
        rcases List.mem_cons.mp hm with hm | hm
        · subst hm
          exact absurd hk.symm h
        · exact ⟨kv', hm, hk⟩

/-- Appending on the left is injective for strings. -/
theorem string_append_left_cancel (a b c : String) (h : a ++ b = a ++ c) :
    b = c := by
  have hd : a.data ++ b.data = a.data ++ c.data := by
    have := congrArg String.data h
    simpa [String.data_append] using this
  have h2 := List.append_cancel_left hd
  exact String.ext h2

/-- `takeWhile`/`dropWhile` on a list that satisfies the predicate up
to a first failing element. -/
theorem takeWhile_dropWhile_split (p : Char → Bool) (l1 : List Char)
    (x : Char) (l2 : List Char) (h1 : ∀ y ∈ l1, p y = true)
    (h2 : p x = false) :
    (l1 ++ x :: l2).takeWhile p = l1 ∧
    (l1 ++ x :: l2).dropWhile p = x :: l2 := by
  induction l1 with
  | nil => simp [List.takeWhile_cons, List.dropWhile_cons, h2]
  | cons y ys ih =>
    have hy : p y = true := h1 y (by simp)
    have := ih (fun z hz => h1 z (by simp [hz]))
    simp [List.takeWhile_cons, List.dropWhile_cons, hy, this.1, this.2]

/-- `takeWhile` keeps a list every element of which satisfies the
predicate. -/
theorem takeWhile_all (p : Char → Bool) (l : List Char)
    (h : ∀ y ∈ l, p y = true) : l.takeWhile p = l := by
  induction l with
  | nil => rfl
  | cons y ys ih =>
    have hy : p y = true := h y (by simp)
    simp [List.takeWhile_cons, hy, ih (fun z hz => h z (by simp [hz]))]

/-- `dropWhile` keeps a list whose head fails the predicate. -/
theorem dropWhile_head_false (p : Char → Bool) (y : Char) (ys : List Char)
    (h : p y = false) : (y :: ys).dropWhile p = y :: ys := by
  simp [List.dropWhile_cons, h]

/-- If some element fails the predicate, `dropWhile` is nonempty. -/
theorem dropWhile_ne_nil_of_any (p : Char → Bool) (l : List Char)
    (h : l.any (fun c => !p c) = true) : l.dropWhile p ≠ [] := by
  induction l with
  | nil => simp at h
  | cons y ys ih =>
    rw [List.dropWhile_cons]
    by_cases hy : p y
    · simp only [hy, if_true]
      apply ih
      simp only [List.any_cons, hy, Bool.not_true, Bool.false_or] at h
      exact h
    · simp [hy]

/-- `fscanf("%s")` on a nonempty, whitespace-free content reads the
content whole. -/
theorem fscanfToken_id (v : String) (hne : v ≠ "")
    (hws : ∀ c ∈ v.data, isWs c = false) : fscanfToken v = some v := by
  have hdata : v.data ≠ [] := fun hd => hne (String.ext hd)
  have hdrop : v.data.dropWhile isWs = v.data := by
    rcases hv : v.data with _ | ⟨c, cs⟩
    · rfl
    · exact dropWhile_head_false isWs c cs (hws c (by rw [hv]; simp))
  have htake : v.data.takeWhile (fun x => !isWs x) = v.data :=
    takeWhile_all _ _ (fun y hy => by simp [hws y hy])
  have hie : v.data.isEmpty = false := by
    rcases hv : v.data with _ | _
    · exact absurd hv hdata
    · rfl
  simp only [fscanfToken, hdrop, htake, hie, Bool.false_eq_true, if_false]

/-- The first `strtok(.., ".")` of a name `C ++ "." ++ s` with a
dot-free nonempty `C` cuts exactly `C`. -/
theorem strtokChar_dot_split (C s : String) (hCne : C ≠ "")
    (hCdot : '.' ∉ C.data) :
    strtokChar '.' (C ++ "." ++ s).data =
      some (C.data, '.' :: s.data) := by
  have hdata : (C ++ "." ++ s).data = C.data ++ '.' :: s.data := by
    simp [String.data_append]
  have hCd : C.data ≠ [] := fun hd => hCne (String.ext hd)
  have hall : ∀ y ∈ C.data, (fun c => decide (c ≠ '.')) y = true := by
    intro y hy
    simp only [decide_eq_true_iff, ne_eq]
    intro hc
    exact hCdot (hc ▸ hy)
  rcases hC : C.data with _ | ⟨c, cs⟩
  · exact absurd hC hCd
  · have hall2 : ∀ y ∈ c :: cs, (fun c => decide (c ≠ '.')) y = true :=
      hC ▸ hall
    have hc : (fun c => decide (c ≠ '.')) c = true := hall2 c (by simp)
    have hcdot : ¬ (c = '.') := by simpa using hc
    unfold strtokChar
    rw [hdata, hC]
    have hdrop0 : (c :: (cs ++ '.' :: s.data)).dropWhile
        (fun x => decide (x = '.')) = c :: (cs ++ '.' :: s.data) := by
      apply dropWhile_head_false
      simpa using hcdot
    simp only [List.cons_append]
    rw [hdrop0]
    have hsplit := takeWhile_dropWhile_split (fun x => decide (x ≠ '.'))
      (c :: cs) '.' s.data hall2 (by simp)
    simp only [List.cons_append] at hsplit
    simp only [List.isEmpty_cons, Bool.false_eq_true, if_false]
    rw [hsplit.1, hsplit.2]

/-- `setContent` at a bound key binds the new content. -/
theorem setContent_lookup_self (files : List (String × String))
    (p val : String) (h : (files.lookup p).isSome = true) :
    (setContent files p val).lookup p = some val := by
  induction files with
  | nil => simp [List.lookup] at h
  | cons kv rest ih =>
    obtain ⟨k, v⟩ := kv
    by_cases hk : k = p
    · subst hk
      simp [setContent, List.lookup]
    · have hbeq : (p == k) = false := by
        simp only [beq_eq_false_iff_ne, ne_eq]
        exact fun hh => hk hh.symm
      simp only [setContent, hk, if_false]
      simp only [List.lookup, hbeq] at h ⊢
      exact ih h

/-- `setContent` leaves other keys alone. -/
theorem setContent_lookup_other (files : List (String × String))
    (p val q : String) (h : q ≠ p) :
    (setContent files p val).lookup q = files.lookup q := by
  induction files with
  | nil => rfl
  | cons kv rest ih =>
    obtain ⟨k, v⟩ := kv
    by_cases hk : k = p
    · subst hk
      have hbeq : (q == k) = false := by
        simp only [beq_eq_false_iff_ne, ne_eq]
        exact h
      simp [setContent, List.lookup, hbeq]
    · simp only [setContent, hk, if_false]
      by_cases hq : q = k
      · subst hq
        simp [List.lookup]
      · have hbeq : (q == k) = false := by
          simp [hq]
        simp only [List.lookup, hbeq]
        exact ih

/-- When every attribute write succeeds and the attribute names are
pairwise distinct, the write loop leaves each attribute file holding
its written value and every other file untouched. -/
theorem cg_create_values_lookup (bp : String) :
    ∀ (vals : List control_value) (retval : Nat) (fs : FS),
    (∀ v ∈ vals, (bp ++ v.name).length < FILENAME_MAX) →
    vals.Pairwise (fun a b => a.name ≠ b.name) →
    (∀ v ∈ vals, (cg_set_control_value (bp ++ v.name) v.value fs).1 = 0) →
    (∀ v ∈ vals, (cg_create_values bp retval fs vals).2.2.files.lookup
        (bp ++ v.name) = some v.value) ∧
    (∀ q, (∀ v ∈ vals, q ≠ bp ++ v.name) →
      (cg_create_values bp retval fs vals).2.2.files.lookup q =
        fs.files.lookup q) := by
  intro vals
  induction vals with
  | nil =>
    intro retval fs _ _ _
    exact ⟨by simp, fun q _ => by simp [cg_create_values]⟩
  | cons v rest ih =>
    intro retval fs hlen hdist hsucc
    have hv0 : (cg_set_control_value (bp ++ v.name) v.value fs).1 = 0 :=
      hsucc v (by simp)
    have hz := cg_set_control_value_zero (bp ++ v.name) v.value fs hv0
    have hlt : ¬ FILENAME_MAX ≤ (bp ++ v.name).length := by
      have := hlen v (by simp)
      omega
    simp only [cg_create_values, hlt, if_false]
    cases hse : cg_set_control_value (bp ++ v.name) v.value fs with
    | mk e fs' =>
      have he : e = 0 := by
        have : (e, fs').1 = 0 := hse ▸ hv0
        simpa using this
      subst he
      simp only [ne_eq, not_true_eq_false, Bool.false_eq_true, if_false]
      have hfs' : fs' = { fs with files := setContent fs.files (bp ++ v.name) v.value } := by
        have : (0, fs').2 = { fs with files := setContent fs.files (bp ++ v.name) v.value } :=
          hse ▸ hz.1
        simpa using this
      have hfields := cg_set_control_value_fields (bp ++ v.name) v.value fs
      rw [hse] at hfields
      have hsucc' : ∀ w ∈ rest,
          (cg_set_control_value (bp ++ w.name) w.value fs').1 = 0 := by
        intro w hw
        rw [cg_set_control_value_fst_congr _ _ fs fs' hfields.2.2.2.2.1
          hfields.2.2.1 hfields.2.2.2.2.2.2]
        exact hsucc w (List.mem_cons_of_mem _ hw)
      have hdist' := (List.pairwise_cons.mp hdist).2
      have hdhead := (List.pairwise_cons.mp hdist).1
      have hihr := ih retval fs'
        (fun w hw => hlen w (List.mem_cons_of_mem _ hw)) hdist' hsucc'
      constructor
      · intro w hw
        rcases List.mem_cons.mp hw with hw | hw
        · subst hw
          have havoid : ∀ x ∈ rest, bp ++ w.name ≠ bp ++ x.name := by
            intro x hx heq
            exact hdhead x hx (string_append_left_cancel bp _ _ heq)
          rw [hihr.2 (bp ++ w.name) havoid, hfs']
          exact setContent_lookup_self fs.files (bp ++ w.name) w.value hz.2
        · exact hihr.1 w hw
      · intro q hq
        rw [hihr.2 q (fun x hx => hq x (List.mem_cons_of_mem _ hx)), hfs']
        exact setContent_lookup_other fs.files (bp ++ v.name) v.value q
          (hq v (by simp))

theorem string_length_data (s : String) : s.length = s.data.length := rfl

/-- Membership in the `readdir` listing: exactly the bound keys that
extend the directory path by one non-empty slash-free basename. -/
theorem mem_dirChildren_iff (files : List (String × String))
    (bp d : String) :
    d ∈ dirChildren files bp ↔
      (∃ kv ∈ files, kv.1 = bp ++ d) ∧ d.data ≠ [] ∧
        d.data.contains '/' = false := by
  unfold dirChildren
  rw [List.mem_filterMap]
  constructor
  · rintro ⟨kv, hm, hf⟩
    by_cases hpre : bp.data.isPrefixOf kv.1.data
    · rw [if_pos hpre] at hf
      obtain ⟨t, ht⟩ := List.isPrefixOf_iff_prefix.mp hpre
      have hdrop : kv.1.data.drop bp.length = t := by
        rw [← ht, string_length_data]
        exact List.drop_left _ _
      rw [hdrop] at hf
      by_cases hcond : ¬ t.isEmpty = true ∧ t.contains '/' = false
      · rw [if_pos hcond] at hf
        have hd : d = String.mk t := by
          have := Option.some.inj hf
          exact this.symm
        subst hd
        refine ⟨⟨kv, hm, ?_⟩, ?_, ?_⟩
        · apply String.ext
          rw [String.data_append, ← ht]
        · simpa using hcond.1
        · exact hcond.2
      · rw [if_neg hcond] at hf
        exact absurd hf (by simp)
    · rw [if_neg hpre] at hf
      exact absurd hf (by simp)
  · rintro ⟨⟨kv, hm, hk⟩, hne, hslash⟩
    refine ⟨kv, hm, ?_⟩
    have hdata : kv.1.data = bp.data ++ d.data := by
      rw [hk, String.data_append]
    have hpre : bp.data.isPrefixOf kv.1.data := by
      rw [List.isPrefixOf_iff_prefix, hdata]
      exact List.prefix_append _ _
    rw [if_pos hpre]
    have hdrop : kv.1.data.drop bp.length = d.data := by
      rw [hdata, string_length_data]
      exact List.drop_left _ _
    rw [hdrop]
    have hcond : ¬ d.data.isEmpty = true ∧ d.data.contains '/' = false := by
      constructor
      · simpa using hne
      · exact hslash
    rw [if_pos hcond]

/-- The `readdir` listing has no duplicate basenames when the key list
has no duplicates. -/
theorem dirChildren_nodup (files : List (String × String)) (bp : String)
    (h : (files.map Prod.fst).Nodup) : (dirChildren files bp).Nodup := by
  induction files with
  | nil => simp [dirChildren]
  | cons kv rest ih =>
    simp only [List.map_cons, List.nodup_cons] at h
    have htail := ih h.2
    unfold dirChildren at htail ⊢
    rw [List.filterMap_cons]
    rcases hf : (if bp.data.isPrefixOf kv.1.data then
        (if ¬ (kv.1.data.drop bp.length).isEmpty = true ∧
            (kv.1.data.drop bp.length).contains '/' = false then
          some (String.mk (kv.1.data.drop bp.length)) else none)
      else none) with _ | d
    · exact htail
    · rw [List.nodup_cons]
      refine ⟨?_, htail⟩
      intro hmem
      have hkey : kv.1 = bp ++ d := by
        by_cases hpre : bp.data.isPrefixOf kv.1.data
        · rw [if_pos hpre] at hf
          by_cases hcond : ¬ (kv.1.data.drop bp.length).isEmpty = true ∧
              (kv.1.data.drop bp.length).contains '/' = false
          · rw [if_pos hcond] at hf
            have hd := Option.some.inj hf
            obtain ⟨t, ht⟩ := List.isPrefixOf_iff_prefix.mp hpre
            apply String.ext
            rw [String.data_append, ← hd]
            simp only []
            rw [string_length_data, ← ht, List.drop_left]
          · rw [if_neg hcond] at hf
            exact absurd hf (by simp)
        · rw [if_neg hpre] at hf
          exact absurd hf (by simp)
      have := (mem_dirChildren_iff rest bp d).mp hmem
      obtain ⟨⟨kv2, hm2, hk2⟩, _, _⟩ := this
      apply h.1
      rw [List.mem_map]
      exact ⟨kv2, hm2, by rw [hk2, ← hkey]⟩

/-- The `readdir` listing depends only on the key list. -/
theorem dirChildren_congr (l1 l2 : List (String × String)) (bp : String)
    (h : l1.map Prod.fst = l2.map Prod.fst) :
    dirChildren l1 bp = dirChildren l2 bp := by
  induction l1 generalizing l2 with
  | nil =>
    cases l2 with
    | nil => rfl
    | cons b bs => simp at h
  | cons a as ih =>
    cases l2 with
    | nil => simp at h
    | cons b bs =>
      simp only [List.map_cons, List.cons.injEq] at h
      unfold dirChildren
      rw [List.filterMap_cons, List.filterMap_cons, h.1]
      have := ih bs h.2
      unfold dirChildren at this
      rw [this]

/-- With unique controller names, looking a table entry's own name up
finds the entry itself. -/
theorem find?_name_self (mt : MountTable) (en : String × String)
    (hmem : en ∈ mt) (hnd : (mt.map Prod.fst).Nodup) :
    mt.find? (fun e => e.1 == en.1) = some en := by
  induction mt with
  | nil => simp at hmem
  | cons b rest ih =>
    simp only [List.map_cons, List.nodup_cons] at hnd
    rcases List.mem_cons.mp hmem with hmem1 | hmem1
    · subst hmem1
      simp [List.find?_cons]
    · have hbne : (b.1 == en.1) = false := by
        simp only [beq_eq_false_iff_ne, ne_eq]
        intro hb
        apply hnd.1
        rw [List.mem_map]
        exact ⟨en, hmem1, hb.symm⟩
      rw [List.find?_cons, hbne]
      exact ih hmem1 hnd.2


/-- A directory entry passing the sanity conditions never aborts the
read: the fill step is not `ECGFAIL`, preserves the group and block
names, and only ever appends a value named after the entry itself. -/
theorem cgroup_fill_cgc_no_fail (mt : MountTable) (fs2 : FS) (bp : String)
    (d : String) (g : cgroup) (cgc : cgroup_controller) (C : String)
    (hb : cg_build_path mt (some g.name) C = some bp)
    (hdok : d = "." ∨ d = ".." ∨ d.data.any (fun c => c ≠ '.') = true)
    (hstat : (fs2.files.lookup (bp ++ d)).isSome = true)
    (hdisj : ∀ x ∈ cgc.values, x.name ≠ d) :
    (cgroup_fill_cgc mt fs2 d g cgc C).1 ≠ ECGFAIL ∧
    (cgroup_fill_cgc mt fs2 d g cgc C).2.1.name = g.name ∧
    (cgroup_fill_cgc mt fs2 d g cgc C).2.1.controller = g.controller ∧
    (cgroup_fill_cgc mt fs2 d g cgc C).2.2.name = cgc.name ∧
    (∀ x ∈ cgc.values, x ∈ (cgroup_fill_cgc mt fs2 d g cgc C).2.2.values) ∧
    (∀ x ∈ (cgroup_fill_cgc mt fs2 d g cgc C).2.2.values,
      x ∈ cgc.values ∨ x.name = d) := by
  by_cases hdot : d = "." ∨ d = ".."
  · rw [cgroup_fill_cgc, if_pos hdot]
    refine ⟨by simp [ECGINVAL, ECGFAIL], by trivial, by trivial, by trivial,
      fun x hx => hx, fun x hx => Or.inl hx⟩
  · have hany : d.data.any (fun c => c ≠ '.') = true := by
      rcases hdok with h | h | h
      · exact absurd (Or.inl h) hdot
      · exact absurd (Or.inr h) hdot
      · exact h
    have hnone : (fs2.files.lookup (bp ++ d)).isNone = false := by
      rcases hlk : fs2.files.lookup (bp ++ d) with _ | w
      · rw [hlk] at hstat
        simp at hstat
      · rfl
    rw [cgroup_fill_cgc]
    simp only [if_neg hdot, hb, hnone, Bool.false_eq_true, if_false]
    have hst1ne : d.data.dropWhile (fun c => c = '.') ≠ [] := by
      apply dropWhile_ne_nil_of_any
      simpa [decide_not] using hany
    rcases hst1 : strtokChar '.' d.data with _ | ⟨t1, r1⟩
    · exfalso
      unfold strtokChar at hst1
      by_cases hie : (d.data.dropWhile (fun c => c = '.')).isEmpty = true
      · exact hst1ne (List.isEmpty_iff.mp hie)
      · rw [if_neg hie] at hst1
        exact absurd hst1 (by simp)
    · simp only [hst1]
      rcases hst2 : strtokChar '.' r1 with _ | t2
      · simp only [hst2]
        refine ⟨by simp [ECGINVAL, ECGFAIL], by trivial, by trivial, by trivial,
          fun x hx => hx, fun x hx => Or.inl hx⟩
      · simp only [hst2]
        by_cases hteq : String.mk t1 = C
        · rw [if_pos hteq]
          unfold cg_rd_ctrl_file
          have hb2 : cg_build_path mt (some g.name) C = some bp := hb
          simp only [hb2]
          rcases hlk : fs2.files.lookup (bp ++ d) with _ | content
          · rw [hlk] at hstat
            simp at hstat
          · simp only [hlk]
            rcases htok : fscanfToken content with _ | w
            · simp only [htok]
              refine ⟨by simp [ECGFAIL], by trivial, by trivial, by trivial,
                fun x hx => hx, fun x hx => Or.inl hx⟩
            · simp only [htok]
              unfold cgroup_add_value_string
              have hanyv : cgc.values.any (fun v => v.name == d) = false := by
                rw [List.any_eq_false]
                intro x hx
                simpa using hdisj x hx
              rw [hanyv]
              simp only [Bool.false_eq_true, if_false]
              refine ⟨by simp [ECGFAIL], by trivial, by trivial, by trivial, ?_, ?_⟩
              · intro x hx
                simp [hx]
              · intro x hx
                rcases List.mem_append.mp hx with hx | hx
                · exact Or.inl hx
                · simp only [List.mem_singleton] at hx
                  subst hx
                  exact Or.inr rfl
        · rw [if_neg hteq]
          refine ⟨by simp [ECGFAIL], by trivial, by trivial, by trivial,
            fun x hx => hx, fun x hx => Or.inl hx⟩


/-- A directory entry named `C.s` for the controller `C` under scan,
whose file holds a clean token, makes `cgroup_fill_cgc` append exactly
the pair `(C.s, token)` and record the file owner in the group. -/
theorem cgroup_fill_cgc_adds (mt : MountTable) (fs2 : FS) (bp : String)
    (d s val : String) (g : cgroup) (cgc : cgroup_controller) (C : String)
    (hb : cg_build_path mt (some g.name) C = some bp)
    (hC : C ≠ "") (hCdot : '.' ∉ C.data)
    (hd : d = C ++ "." ++ s)
    (hsany : s.data.any (fun c => c ≠ '.') = true)
    (hlook : fs2.files.lookup (bp ++ d) = some val)
    (htok : fscanfToken val = some val)
    (hdisj : ∀ x ∈ cgc.values, x.name ≠ d) :
    cgroup_fill_cgc mt fs2 d g cgc C =
      (0,
       { g with control_uid := (fs2.fowner (bp ++ d)).1,
                control_gid := (fs2.fowner (bp ++ d)).2 },
       { cgc with values := cgc.values ++ [⟨d, val⟩] }) := by
  have hCd : C.data ≠ [] := fun hh => hC (String.ext hh)
  have hddata : d.data = C.data ++ '.' :: s.data := by
    rw [hd]
    simp [String.data_append]
  have hhead : ∀ c0 cs0, C.data = c0 :: cs0 → c0 ≠ '.' := by
    intro c0 cs0 hc hc0
    exact hCdot (by rw [hc, hc0]; exact List.mem_cons_self _ _)
  have hdot : ¬ (d = "." ∨ d = "..") := by
    rcases hCx : C.data with _ | ⟨c0, cs0⟩
    · exact absurd hCx hCd
    · rintro (hh | hh) <;>
      · rw [hh] at hddata
        rw [hCx] at hddata
        exact hhead c0 cs0 hCx (by
          have := congrArg List.head? hddata
          simp at this
          exact this.symm)
  have hst1 : strtokChar '.' d.data = some (C.data, '.' :: s.data) := by
    rw [hd]
    exact strtokChar_dot_split C s hC hCdot
  have hst2ne : (('.' :: s.data).dropWhile (fun c => c = '.')) ≠ [] := by
    apply dropWhile_ne_nil_of_any
    simp only [List.any_cons]
    have : (s.data.any fun c => !decide (c = '.')) = true := by
      simpa [decide_not] using hsany
    simp [this]
  have hst2 : ∃ pr, strtokChar '.' ('.' :: s.data) = some pr := by
    unfold strtokChar
    have hie : (('.' :: s.data).dropWhile (fun c => c = '.')).isEmpty = false := by
      rcases hx : (('.' :: s.data).dropWhile (fun c => c = '.')) with _ | _
      · exact absurd hx hst2ne
      · rfl
    simp only [hie, Bool.false_eq_true, if_false]
    exact ⟨_, rfl⟩
  obtain ⟨pr, hst2⟩ := hst2
  rw [cgroup_fill_cgc]
  simp only [if_neg hdot, hb, hlook, Option.isNone_some, Bool.false_eq_true,
    if_false, hst1, hst2]
  rw [if_pos trivial]
  unfold cg_rd_ctrl_file
  have hb2 : cg_build_path mt (some g.name) C = some bp := hb
  simp only [hb2, hlook, htok]
  unfold cgroup_add_value_string
  have hanyv : cgc.values.any (fun v => v.name == d) = false := by
    rw [List.any_eq_false]
    intro x hx
    simpa using hdisj x hx
  rw [hanyv]
  simp only [Bool.false_eq_true, if_false]


/-- One-step unfolding of the directory fold. -/
theorem cg_get_fill_dir_cons (mt : MountTable) (fs2 : FS) (C d : String)
    (rest : List String) (g : cgroup) (cgc : cgroup_controller) :
    cg_get_fill_dir mt fs2 C (d :: rest) g cgc =
      if (cgroup_fill_cgc mt fs2 d g cgc C).1 = ECGFAIL then .error ECGFAIL
      else cg_get_fill_dir mt fs2 C rest
        (cgroup_fill_cgc mt fs2 d g cgc C).2.1
        (cgroup_fill_cgc mt fs2 d g cgc C).2.2 := rfl

/-- The directory fold of the read loop succeeds over sane entries,
preserves the group and block names, keeps every previously collected
value, invents no foreign names, and collects the pair `(C.s, token)`
for every entry of that shape whose file holds a clean token. -/
theorem cg_get_fill_dir_ok (mt : MountTable) (fs2 : FS) (bp C : String)
    (hC : C ≠ "") (hCdot : '.' ∉ C.data) (ds : List String) :
    ∀ (g : cgroup) (cgc : cgroup_controller),
    cg_build_path mt (some g.name) C = some bp →
    (∀ d ∈ ds, (d = "." ∨ d = ".." ∨ d.data.any (fun c => c ≠ '.') = true) ∧
      (fs2.files.lookup (bp ++ d)).isSome = true) →
    ds.Nodup →
    (∀ x ∈ cgc.values, x.name ∉ ds) →
    ∃ g' cgc', cg_get_fill_dir mt fs2 C ds g cgc = .ok (g', cgc') ∧
      g'.name = g.name ∧ g'.controller = g.controller ∧ cgc'.name = cgc.name ∧
      (∀ x ∈ cgc.values, x ∈ cgc'.values) ∧
      (∀ x ∈ cgc'.values, x ∈ cgc.values ∨ x.name ∈ ds) ∧
      (∀ d val, d ∈ ds →
        (∃ s, d = C ++ "." ++ s ∧ s.data.any (fun c => c ≠ '.') = true) →
        fs2.files.lookup (bp ++ d) = some val → fscanfToken val = some val →
        (⟨d, val⟩ : control_value) ∈ cgc'.values) := by
  induction ds with
  | nil =>
    intro g cgc hb hds hnd hdisj
    exact ⟨g, cgc, rfl, rfl, rfl, rfl, fun x hx => hx, fun x hx => Or.inl hx,
      fun d val hd => absurd hd (List.not_mem_nil d)⟩
  | cons d rest ih =>
    intro g cgc hb hds hnd hdisj
    have hdisj1 : ∀ x ∈ cgc.values, x.name ≠ d := by
      intro x hx he
      exact hdisj x hx (he ▸ List.mem_cons_self d rest)
    obtain ⟨hno1, hno2, hno2c, hno3, hno4, hno5⟩ :=
      cgroup_fill_cgc_no_fail mt fs2 bp d g cgc C hb
        (hds d (List.mem_cons_self d rest)).1
        (hds d (List.mem_cons_self d rest)).2 hdisj1
    have hb1 : cg_build_path mt
        (some (cgroup_fill_cgc mt fs2 d g cgc C).2.1.name) C = some bp := by
      rw [hno2]
      exact hb
    have hdns : d ∉ rest := (List.nodup_cons.mp hnd).1
    have hdisj2 : ∀ x ∈ (cgroup_fill_cgc mt fs2 d g cgc C).2.2.values,
        x.name ∉ rest := by
      intro x hx hmem
      rcases hno5 x hx with hx2 | hx2
      · exact hdisj x hx2 (List.mem_cons_of_mem d hmem)
      · exact hdns (hx2 ▸ hmem)
    obtain ⟨g2, cgc2, hok, hn1, hn1c, hn2, hmono, hfrom, hQ⟩ :=
      ih (cgroup_fill_cgc mt fs2 d g cgc C).2.1
        (cgroup_fill_cgc mt fs2 d g cgc C).2.2 hb1
        (fun d0 h0 => hds d0 (List.mem_cons_of_mem d h0))
        (List.nodup_cons.mp hnd).2 hdisj2
    refine ⟨g2, cgc2, ?_, hn1.trans hno2, hn1c.trans hno2c, hn2.trans hno3,
      ?_, ?_, ?_⟩
    · rw [cg_get_fill_dir_cons, if_neg hno1]
      exact hok
    · intro x hx
      exact hmono x (hno4 x hx)
    · intro x hx
      rcases hfrom x hx with hx2 | hx2
      · rcases hno5 x hx2 with hx3 | hx3
        · exact Or.inl hx3
        · exact Or.inr (hx3 ▸ List.mem_cons_self d rest)
      · exact Or.inr (List.mem_cons_of_mem d hx2)
    · intro d0 val hd0 hshape hlk htk
      rcases List.mem_cons.mp hd0 with hd0 | hd0
      · subst hd0
        obtain ⟨s, hds', hsa⟩ := hshape
        have hA := cgroup_fill_cgc_adds mt fs2 bp d0 s val g cgc C hb hC
          hCdot hds' hsa hlk htk hdisj1
        apply hmono
        rw [hA]
        simp
      · exact hQ d0 val hd0 hshape hlk htk


/-- Mount-table entries whose mount point holds no directory for the
group are passed over by the read loop. -/
theorem cg_get_loop_skip (mt : MountTable) (fs2 : FS) :
    ∀ (pre rest : MountTable) (g0 : cgroup),
    (∀ en ∈ pre, cg_build_path mt none en.1 = none ∨
      ∃ mp, cg_build_path mt none en.1 = some mp ∧ (mp ++ g0.name) ∉ fs2.dirs) →
    cg_get_loop mt fs2 (pre ++ rest) g0 = cg_get_loop mt fs2 rest g0 := by
  intro pre
  induction pre with
  | nil =>
    intro rest g0 _
    rw [List.nil_append]
  | cons en pre2 ih =>
    intro rest g0 h
    rw [List.cons_append]
    rcases h en (List.mem_cons_self en pre2) with hb | ⟨mp, hb, hnd⟩
    · show cg_get_loop mt fs2 (en :: (pre2 ++ rest)) g0 =
        cg_get_loop mt fs2 rest g0
      rw [show cg_get_loop mt fs2 (en :: (pre2 ++ rest)) g0 =
          (match cg_build_path mt none en.1 with
           | none => cg_get_loop mt fs2 (pre2 ++ rest) g0
           | some mp =>
             if (mp ++ g0.name) ∈ fs2.dirs then
               match cg_build_path mt (some g0.name) en.1 with
               | none => cg_get_loop mt fs2 (pre2 ++ rest) g0
               | some path0 =>
                 match fs2.files.lookup (path0 ++ "/tasks") with
                 | none => .error ECGOTHER
                 | some _ =>
                   let own := fs2.fowner (path0 ++ "/tasks")
                   let g1 := { g0 with tasks_uid := own.1, tasks_gid := own.2 }
                   if CG_CONTROLLER_MAX ≤ g1.controller.length then
                     .error ECGINVAL
                   else
                     match cg_get_fill_dir mt fs2 en.1
                         (dirChildren fs2.files path0) g1 ⟨en.1, []⟩ with
                     | .error er => .error er
                     | .ok (g2, cgc) =>
                       cg_get_loop mt fs2 (pre2 ++ rest)
                         { g2 with controller := g2.controller ++ [cgc] }
             else cg_get_loop mt fs2 (pre2 ++ rest) g0) from rfl]
      simp only [hb]
      exact ih rest g0 (fun x hx => h x (List.mem_cons_of_mem en hx))
    · show cg_get_loop mt fs2 (en :: (pre2 ++ rest)) g0 =
        cg_get_loop mt fs2 rest g0
      rw [show cg_get_loop mt fs2 (en :: (pre2 ++ rest)) g0 =
          (match cg_build_path mt none en.1 with
           | none => cg_get_loop mt fs2 (pre2 ++ rest) g0
           | some mp =>
             if (mp ++ g0.name) ∈ fs2.dirs then
               match cg_build_path mt (some g0.name) en.1 with
               | none => cg_get_loop mt fs2 (pre2 ++ rest) g0
               | some path0 =>
                 match fs2.files.lookup (path0 ++ "/tasks") with
                 | none => .error ECGOTHER
                 | some _ =>
                   let own := fs2.fowner (path0 ++ "/tasks")
                   let g1 := { g0 with tasks_uid := own.1, tasks_gid := own.2 }
                   if CG_CONTROLLER_MAX ≤ g1.controller.length then
                     .error ECGINVAL
                   else
                     match cg_get_fill_dir mt fs2 en.1
                         (dirChildren fs2.files path0) g1 ⟨en.1, []⟩ with
                     | .error er => .error er
                     | .ok (g2, cgc) =>
                       cg_get_loop mt fs2 (pre2 ++ rest)
                         { g2 with controller := g2.controller ++ [cgc] }
             else cg_get_loop mt fs2 (pre2 ++ rest) g0) from rfl]
      simp only [hb]
      rw [if_neg hnd]
      exact ih rest g0 (fun x hx => h x (List.mem_cons_of_mem en hx))


/-- A successful single-block create leaves the key set and the
existing directories in place, binds every attribute file of the
block to its written value, and certifies that each attribute file
already existed before the call. -/
theorem cgroup_create_single_block (mt : MountTable) (fs : FS) (g : cgroup)
    (blk : cgroup_controller) (bp : String) (fs₁ fs' : FS)
    (hone : g.controller = [blk])
    (hbuild : cg_build_path mt (some g.name) blk.name = some bp)
    (hmk : cg_create_control_group bp fs = (0, fs₁))
    (hlen : ∀ v ∈ blk.values, (bp ++ v.name).length < FILENAME_MAX)
    (hdist : blk.values.Pairwise (fun a b => a.name ≠ b.name))
    (hcreate : cgroup_create_cgroup mt true g true fs = (0, fs')) :
    fs'.files.map Prod.fst = fs.files.map Prod.fst ∧
    (∀ d ∈ fs.dirs, d ∈ fs'.dirs) ∧
    (∀ v ∈ blk.values, fs'.files.lookup (bp ++ v.name) = some v.value) ∧
    (∀ v ∈ blk.values, (fs.files.lookup (bp ++ v.name)).isSome = true) := by
  have htest := cgroup_test_subsys_mounted_of_build mt _ _ _ hbuild
  have hallb : (!(([blk] : List cgroup_controller).all
      (fun c => cgroup_test_subsys_mounted mt c.name))) = false := by
    simp [htest]
  have hmkinv := cg_create_control_group_inv bp fs
  rw [hmk] at hmkinv
  have hf1 : fs₁.files = fs.files := hmkinv.1
  have hd1 : ∀ d ∈ fs.dirs, d ∈ fs₁.dirs := hmkinv.2.2.2.2.2.2
  simp only [cgroup_create_cgroup, Bool.not_true, Bool.false_eq_true,
    if_false, hone, hallb] at hcreate
  simp only [cg_create_loop] at hcreate
  simp only [hbuild] at hcreate
  rw [hmk] at hcreate
  simp only [if_true, ne_eq] at hcreate
  norm_num at hcreate
  have hvs := cg_create_values_spec bp blk.values 0 fs₁ hlen
  cases hcv : cg_create_values bp 0 fs₁ blk.values with
  | mk fatal? r2 =>
    cases r2 with
    | mk retval' fs₃ =>
      rw [hcv] at hvs
      have hfat : fatal? = none := hvs.1
      subst hfat
      simp only [hcv] at hcreate
      have hret : retval' = 0 := (Prod.mk.injEq _ _ _ _).mp hcreate |>.1
      have hfs3 : fs₃ = fs' := (Prod.mk.injEq _ _ _ _).mp hcreate |>.2
      have hlast : lastErrFrom 0 (blk.values.map
          (fun v => (cg_set_control_value (bp ++ v.name) v.value fs₁).1)) = 0 := by
        have h2 : retval' = lastErrFrom 0 (blk.values.map
            (fun v => (cg_set_control_value (bp ++ v.name) v.value fs₁).1)) :=
          hvs.2.1
        rw [← h2, hret]
      have hsucc : ∀ v ∈ blk.values,
          (cg_set_control_value (bp ++ v.name) v.value fs₁).1 = 0 := by
        intro v hv
        exact (lastErrFrom_eq_zero _ 0 hlast).2 _
          (List.mem_map_of_mem _ hv)
      have hlkp := cg_create_values_lookup bp blk.values 0 fs₁ hlen hdist hsucc
      rw [hcv] at hlkp
      refine ⟨?_, ?_, ?_, ?_⟩
      · have hk : fs₃.files.map Prod.fst = fs₁.files.map Prod.fst :=
          hvs.2.2.2.2.2.2.2
        rw [← hfs3, hk, hf1]
      · intro d hd
        have hd3 : fs₃.dirs = fs₁.dirs := hvs.2.2.1
        rw [← hfs3, hd3]
        exact hd1 d hd
      · intro v hv
        rw [← hfs3]
        exact hlkp.1 v hv
      · intro v hv
        have hz := cg_set_control_value_zero (bp ++ v.name) v.value fs₁
          (hsucc v hv)
        rw [hf1] at hz
        exact hz.2


/-- C1 (amended): the create/read round trip holds when every
attribute name has the dotted form `C.suffix` the reader requires:
after a successful single-block create (ownership ignored) on a
mount table with unique controller names, reading a fresh group of
the same name yields a controller block named `C` containing every
written `(name, value)` pair. -/
theorem C1_round_trip_with_dotted_names
    (mt : MountTable) (fs fs₁ fs' : FS) (g g0 : cgroup)
    (blk : cgroup_controller) (mdir bp : String)
    (hmtnd : (mt.map Prod.fst).Nodup)
    (hment : (blk.name, mdir) ∈ mt)
    (hone : g.controller = [blk])
    (hCne : blk.name ≠ "")
    (hCdot : '.' ∉ blk.name.data)
    (hbp : bp = mdir ++ "/" ++ g.name ++ "/")
    (hg0n : g0.name = g.name)
    (hg0c : g0.controller = [])
    (hkeys : ∀ v ∈ blk.values, ∃ s, v.name = blk.name ++ "." ++ s ∧
      s.data.any (fun c => c ≠ '.') = true)
    (hkslash : ∀ v ∈ blk.values, v.name.data.contains '/' = false)
    (hvals : ∀ v ∈ blk.values, v.value ≠ "" ∧
      ∀ c ∈ v.value.data, isWs c = false)
    (hdist : blk.values.Pairwise (fun a b => a.name ≠ b.name))
    (hlen : ∀ v ∈ blk.values, (bp ++ v.name).length < FILENAME_MAX)
    (hmk : cg_create_control_group bp fs = (0, fs₁))
    (hcreate : cgroup_create_cgroup mt true g true fs = (0, fs'))
    (hdirC : (mdir ++ "/" ++ g.name) ∈ fs.dirs)
    (htasks : (fs.files.lookup (bp ++ "/tasks")).isSome = true)
    (hnodupf : (fs.files.map Prod.fst).Nodup)
    (hclean : ∀ d ∈ dirChildren fs.files bp,
      d = "." ∨ d = ".." ∨ d.data.any (fun c => c ≠ '.') = true)
    (hothers : ∀ en ∈ mt, en.1 ≠ blk.name →
      ((en.2 ++ "/") ++ g.name) ∉ fs'.dirs) :
    ∃ gout, cgroup_get_cgroup mt true g0 fs' = .ok gout ∧
      ∃ cgc ∈ gout.controller, cgc.name = blk.name ∧
        ∀ v ∈ blk.values, (⟨v.name, v.value⟩ : control_value) ∈ cgc.values := by
  have hfind : mt.find? (fun e => e.1 == blk.name) = some (blk.name, mdir) := by
    simpa using find?_name_self mt (blk.name, mdir) hment hmtnd
  have hbuild : cg_build_path mt (some g.name) blk.name = some bp := by
    rw [hbp]
    unfold cg_build_path
    rw [hfind]
  obtain ⟨hkeyset, hdmono, hlook2, hpre⟩ :=
    cgroup_create_single_block mt fs g blk bp fs₁ fs' hone hbuild hmk hlen
      hdist hcreate
  obtain ⟨pre, post, hsplit⟩ := List.append_of_mem hment
  have hmtnd2 : (pre.map Prod.fst ++ blk.name :: post.map Prod.fst).Nodup := by
    rw [hsplit] at hmtnd
    simpa using hmtnd
  have hnm := List.nodup_middle.mp hmtnd2
  have hnmh : blk.name ∉ pre.map Prod.fst ++ post.map Prod.fst :=
    (List.nodup_cons.mp hnm).1
  have hprename : ∀ en ∈ pre, en.1 ≠ blk.name := by
    intro en hen he
    exact hnmh (List.mem_append_left _ (he ▸ List.mem_map_of_mem Prod.fst hen))
  have hpostname : ∀ en ∈ post, en.1 ≠ blk.name := by
    intro en hen he
    exact hnmh (List.mem_append_right _ (he ▸ List.mem_map_of_mem Prod.fst hen))
  have hpremem : ∀ en ∈ pre, en ∈ mt := by
    intro en hen
    rw [hsplit]
    exact List.mem_append_left _ hen
  have hpostmem : ∀ en ∈ post, en ∈ mt := by
    intro en hen
    rw [hsplit]
    exact List.mem_append_right _ (List.mem_cons_of_mem _ hen)
  have hbuildOther : ∀ en ∈ mt, cg_build_path mt none en.1 = some (en.2 ++ "/") := by
    intro en hen
    unfold cg_build_path
    rw [find?_name_self mt en hen hmtnd]
  have hskip1 :=
    cg_get_loop_skip mt fs' pre ((blk.name, mdir) :: post) g0
      (fun en hen => Or.inr ⟨en.2 ++ "/", hbuildOther en (hpremem en hen),
        fun hmem => hothers en (hpremem en hen) (hprename en hen)
          (by rw [← hg0n]; exact hmem)⟩)
  have hbn : cg_build_path mt none blk.name = some (mdir ++ "/") := by
    unfold cg_build_path
    rw [hfind]
  have hbs : cg_build_path mt (some g0.name) blk.name = some bp := by
    rw [hg0n]
    exact hbuild
  have hts2 : (fs'.files.lookup (bp ++ "/tasks")).isSome = true := by
    rw [lookup_isSome_congr fs'.files fs.files _ hkeyset]
    exact htasks
  rcases hlkt : fs'.files.lookup (bp ++ "/tasks") with _ | w
  · rw [hlkt] at hts2
    simp at hts2
  · have hdir2 : ((mdir ++ "/") ++ g0.name) ∈ fs'.dirs := by
      rw [hg0n]
      exact hdmono _ hdirC
    have hdseq : dirChildren fs'.files bp = dirChildren fs.files bp :=
      dirChildren_congr fs'.files fs.files bp hkeyset
    have hnodupf2 : (fs'.files.map Prod.fst).Nodup := by
      rw [hkeyset]
      exact hnodupf
    obtain ⟨g2, cgc2, hfill, hn1, hn1c, hn2, hmono, hfrom, hQ⟩ :=
      cg_get_fill_dir_ok mt fs' bp blk.name hCne hCdot
        (dirChildren fs'.files bp)
        { g0 with tasks_uid := (fs'.fowner (bp ++ "/tasks")).1,
                  tasks_gid := (fs'.fowner (bp ++ "/tasks")).2 }
        ⟨blk.name, []⟩
        (by exact hbs)
        (by
          intro d hd
          refine ⟨?_, ?_⟩
          · exact hclean d (hdseq ▸ hd)
          · obtain ⟨⟨kv, hkv, hk⟩, _, _⟩ := (mem_dirChildren_iff _ _ _).mp hd
            exact (lookup_isSome_iff _ _).mpr ⟨kv, hkv, hk⟩)
        (dirChildren_nodup fs'.files bp hnodupf2)
        (by
          intro x hx
          simp at hx)
    have hstep : cg_get_loop mt fs' ((blk.name, mdir) :: post) g0 =
        cg_get_loop mt fs' post
          { g2 with controller := g2.controller ++ [cgc2] } := by
      simp only [cg_get_loop]
      simp only [hbn]
      rw [if_pos hdir2]
      simp only [hbs, hlkt]
      rw [if_neg (by
        simp only [hg0c]
        decide)]
      simp only [hfill]
    have hcap : ∀ en ∈ post, cg_build_path mt none en.1 = none ∨
        ∃ mp, cg_build_path mt none en.1 = some mp ∧
          (mp ++ ({ g2 with controller := g2.controller ++ [cgc2] } :
            cgroup).name) ∉ fs'.dirs := by
      intro en hen
      refine Or.inr ⟨en.2 ++ "/", hbuildOther en (hpostmem en hen), ?_⟩
      have hname : ({ g2 with controller := g2.controller ++ [cgc2] } :
          cgroup).name = g.name := by
        show g2.name = g.name
        rw [hn1]
        exact hg0n
      rw [hname]
      exact hothers en (hpostmem en hen) (hpostname en hen)
    have hskip2 := cg_get_loop_skip mt fs' post []
      { g2 with controller := g2.controller ++ [cgc2] } hcap
    rw [List.append_nil] at hskip2
    have hterm : cg_get_loop mt fs' []
        { g2 with controller := g2.controller ++ [cgc2] } =
        .ok { g2 with controller := g2.controller ++ [cgc2] } := by
      show (if ({ g2 with controller := g2.controller ++ [cgc2] } :
          cgroup).controller.isEmpty then
            (.error ECGROUPNOTEXIST : Except Nat cgroup)
          else .ok { g2 with controller := g2.controller ++ [cgc2] }) = _
      have hemp : ({ g2 with controller := g2.controller ++ [cgc2] } :
          cgroup).controller.isEmpty = false := by
        show (g2.controller ++ [cgc2]).isEmpty = false
        simp
      rw [hemp]
      simp
    refine ⟨{ g2 with controller := g2.controller ++ [cgc2] }, ?_, cgc2, ?_,
      ?_, ?_⟩
    · show cg_get_loop mt fs' mt g0 = _
      rw [congrArg (fun l => cg_get_loop mt fs' l g0) hsplit, hskip1, hstep,
        hskip2, hterm]
    · show cgc2 ∈ g2.controller ++ [cgc2]
      exact List.mem_append_right _ (List.mem_singleton_self cgc2)
    · exact hn2
    · intro v hv
      obtain ⟨s, hvs', hsa⟩ := hkeys v hv
      have hlkv : fs'.files.lookup (bp ++ v.name) = some v.value :=
        hlook2 v hv
      have hmemds : v.name ∈ dirChildren fs'.files bp := by
        rw [mem_dirChildren_iff]
        refine ⟨?_, ?_, hkslash v hv⟩
        · obtain ⟨kv, hkv, hk⟩ := (lookup_isSome_iff _ _).mp
            (by rw [hlkv]; rfl)
          exact ⟨kv, hkv, hk⟩
        · rw [hvs']
          simp [String.data_append]
      exact hQ v.name v.value hmemds ⟨s, hvs', hsa⟩ hlkv
        (fscanfToken_id v.value (hvals v hv).1 (hvals v hv).2)


/-- C1: the claim as frozen fails on the code.  The group is created
successfully with the attribute `foo` set to `1`, but the read of a
fresh same-named group returns a `cpu` block with an *empty* value
list: `cgroup_fill_cgc` only collects directory entries whose name,
split at `.`, starts with the controller's own name. -/
theorem C1_round_trip_counterexample :
    (cgroup_create_cgroup c4mt true c1g true c1fs).1 = 0 ∧
    cgroup_get_cgroup c4mt true c1g0
      (cgroup_create_cgroup c4mt true c1g true c1fs).2 =
      .ok ⟨"g", 0, 0, 0, 0, [⟨"cpu", []⟩]⟩ ∧
    (⟨"foo", "1"⟩ : control_value) ∉
      (⟨"cpu", []⟩ : cgroup_controller).values :=
  ⟨rfl, rfl, by decide⟩

/-- C1 witness: with the attribute named `cpu.foo` the amended round
trip goes through on the concrete example. -/
theorem C1_round_trip_with_dotted_names_witness :
    ∃ gout, cgroup_get_cgroup c4mt true c1g0
        (cgroup_create_cgroup c4mt true c1gp true c1fsp).2 = .ok gout ∧
      ∃ cgc ∈ gout.controller, cgc.name = "cpu" ∧
        ∀ v ∈ [(⟨"cpu.foo", "1"⟩ : control_value)],
          (⟨v.name, v.value⟩ : control_value) ∈ cgc.values :=
  C1_round_trip_with_dotted_names c4mt c1fsp
    (cg_create_control_group "/cg/g/" c1fsp).2
    (cgroup_create_cgroup c4mt true c1gp true c1fsp).2
    c1gp c1g0 ⟨"cpu", [⟨"cpu.foo", "1"⟩]⟩ "/cg" "/cg/g/"
    (by decide) (by decide) rfl (by decide) (by decide) rfl rfl rfl
    (by
      intro v hv
      rw [List.mem_singleton] at hv
      subst hv
      exact ⟨"foo", rfl, by decide⟩)
    (by decide) (by decide) (by decide) (by decide) rfl rfl (by decide)
    (by decide) (by decide) (by decide) (by decide)


end LibCgroup
